import Mathlib

/-!
Shallow embedding of the Street Coverage Engine of m0nkichu78/streetquest
(src/components/StreetToast.tsx, MapView part).  Coordinates and distances are
modelled over the real numbers; the JavaScript value Infinity that seeds the
running minima is modelled by the top element of WithTop Real.  A JavaScript
runtime TypeError (reading coords[0] of an empty array) is modelled by an
Option result: none is the crash.
-/

open scoped Classical

noncomputable section

namespace StreetQuest

/-- Degrees-to-planar-meters latitude factor used by every distance
computation: cos(lat * pi / 180). -/
def cosLatOf (lat : ℝ) : ℝ := Real.cos (lat * Real.pi / 180)

/-- Planar length in meters of one segment from a to b, given the cosine
factor of the reference latitude (dLon = (bx-ax)*111000*cosLat,
dLat = (by-ay)*111000, length = sqrt(dLon*dLon + dLat*dLat)). -/
def planarLen (cosLat : ℝ) (a b : ℝ × ℝ) : ℝ :=
  Real.sqrt (((b.1 - a.1) * 111000 * cosLat) * ((b.1 - a.1) * 111000 * cosLat) +
    ((b.2 - a.2) * 111000) * ((b.2 - a.2) * 111000))

/-- The consecutive-vertex segment list of a polyline. -/
def segsOf (coords : List (ℝ × ℝ)) : List ((ℝ × ℝ) × (ℝ × ℝ)) :=
  coords.zip coords.tail

/-- The per-segment planar lengths of a polyline (source: the segLengths
array recomputed at the head of each geometry function). -/
def segLens (cosLat : ℝ) (coords : List (ℝ × ℝ)) : List ℝ :=
  (segsOf coords).map (fun p => planarLen cosLat p.1 p.2)

/-- distancePointToPoint(px, py, qx, qy): planar meters between two
geographic points, cosine factor taken from py. -/
def distancePointToPoint (px py qx qy : ℝ) : ℝ :=
  Real.sqrt (((px - qx) * 111000 * cosLatOf py) * ((px - qx) * 111000 * cosLatOf py) +
    ((py - qy) * 111000) * ((py - qy) * 111000))

/-- A sample point of a street: position plus normalized arc-length t. -/
structure Sample where
  lon : ℝ
  lat : ℝ
  t : ℝ
deriving Inhabited

/-- Per-street coverage record (interface SegmentCoverage). -/
structure SegmentCoverage where
  wayId : ℤ
  featureIndex : ℕ
  coords : List (ℝ × ℝ)
  samples : List Sample
  covered : List Bool
  validated : Bool
  minCoveredT : ℝ
  maxCoveredT : ℝ
deriving Inhabited

/-- Result record of projectOntoLineString.  distance is WithTop Real:
the top element is the JavaScript Infinity the running minimum starts at
(it survives only when the polyline has no segment). -/
structure Proj where
  t : ℝ
  lon : ℝ
  lat : ℝ
  distance : WithTop ℝ
deriving Inhabited

/-- Accumulator of the projection loop. -/
structure ProjState where
  bestDist : WithTop ℝ
  bestT : ℝ
  bestLon : ℝ
  bestLat : ℝ
  cumDist : ℝ

/-- One iteration of the projection loop over a segment (a, b) of planar
length segLen: clamp the projection parameter, build the candidate point,
keep it if strictly nearer. -/
def projStep (px py cosLat total : ℝ) (st : ProjState)
    (a b : ℝ × ℝ) (segLen : ℝ) : ProjState :=
  let dLon := (b.1 - a.1) * 111000 * cosLat
  let dLat := (b.2 - a.2) * 111000
  let localT : ℝ :=
    if 0 < segLen then
      max 0 (min 1 (((px - a.1) * 111000 * cosLat * dLon +
        (py - a.2) * 111000 * dLat) / (segLen * segLen)))
    else 0
  let cLon := a.1 + (b.1 - a.1) * localT
  let cLat := a.2 + (b.2 - a.2) * localT
  let dist := Real.sqrt (((px - cLon) * 111000 * cosLat) * ((px - cLon) * 111000 * cosLat) +
    ((py - cLat) * 111000) * ((py - cLat) * 111000))
  if (dist : WithTop ℝ) < st.bestDist then
    ⟨(dist : WithTop ℝ),
      if 0 < total then (st.cumDist + localT * segLen) / total else 0,
      cLon, cLat, st.cumDist + segLen⟩
  else
    { st with cumDist := st.cumDist + segLen }

/-- The projection loop over the zipped list of segments and lengths. -/
def projLoop (px py cosLat total : ℝ) :
    List (((ℝ × ℝ) × (ℝ × ℝ)) × ℝ) → ProjState → ProjState
  | [], st => st
  | (s, len) :: rest, st =>
      projLoop px py cosLat total rest (projStep px py cosLat total st s.1 s.2 len)

/-- projectOntoLineString(px, py, coords).  Returns none exactly when
coords is empty: the source reads coords[0] unconditionally, so an empty
coordinate list raises a TypeError at runtime. -/
def projectOntoLineString (px py : ℝ) (coords : List (ℝ × ℝ)) : Option Proj :=
  match coords with
  | [] => none
  | c0 :: _ =>
      let cosLat := cosLatOf py
      let lens := segLens cosLat coords
      let total := lens.sum
      let st := projLoop px py cosLat total ((segsOf coords).zip lens)
        ⟨⊤, 0, c0.1, c0.2, 0⟩
      some ⟨st.bestT, st.bestLon, st.bestLat, st.bestDist⟩

/-- Result record of findNearestSegment; idx is the position of the winning
coverage in the list (the source keeps the object reference instead). -/
structure NearMatch where
  idx : ℕ
  coverage : SegmentCoverage
  t : ℝ
  snappedLon : ℝ
  snappedLat : ℝ
  distance : WithTop ℝ

/-- Accumulator of the nearest-segment loop. -/
structure NearState where
  bestDist : WithTop ℝ
  best : Option (ℕ × SegmentCoverage)
  bestT : ℝ
  bestLon : ℝ
  bestLat : ℝ

/-- The nearest-segment loop; none propagates the projection crash on an
empty coordinate list. -/
def nearLoop (px py : ℝ) : List SegmentCoverage → ℕ → NearState → Option NearState
  | [], _, st => some st
  | c :: rest, i, st =>
      match projectOntoLineString px py c.coords with
      | none => none
      | some proj =>
          let st' :=
            if proj.distance < st.bestDist then
              ⟨proj.distance, some (i, c), proj.t, proj.lon, proj.lat⟩
            else st
          nearLoop px py rest (i + 1) st'

/-- findNearestSegment(lon, lat, coverages).  Outer none models the crash
propagated from projecting onto an empty coordinate list; some none is the
source's null result. -/
def findNearestSegment (px py : ℝ) (coverages : List SegmentCoverage) :
    Option (Option NearMatch) :=
  if coverages = [] then some none
  else
    (nearLoop px py coverages 0 ⟨⊤, none, 0, px, py⟩).map (fun st =>
      match st.best with
      | none => none
      | some (i, c) => some ⟨i, c, st.bestT, st.bestLon, st.bestLat, st.bestDist⟩)

/-- One segment pass of the sampler loop: emit max(1, ceil(segLen/step))
evenly spaced samples at local t = j/steps, global
t = (cumDist + localT*segLen)/total when total is positive, else 0. -/
def sampleSeg (stepMeters total cumDist : ℝ) (a b : ℝ × ℝ) (segLen : ℝ) :
    List Sample :=
  let steps : ℕ := max 1 ⌈segLen / stepMeters⌉₊
  (List.range steps).map (fun (j : ℕ) =>
    let localT : ℝ := (j : ℝ) / (steps : ℝ)
    ⟨a.1 + (b.1 - a.1) * localT, a.2 + (b.2 - a.2) * localT,
      if 0 < total then (cumDist + localT * segLen) / total else 0⟩)

/-- The sampler loop over zipped segments and lengths, carrying cumDist. -/
def sampleLoop (stepMeters total : ℝ) :
    List (((ℝ × ℝ) × (ℝ × ℝ)) × ℝ) → ℝ → List Sample
  | [], _ => []
  | (s, len) :: rest, cumDist =>
      sampleSeg stepMeters total cumDist s.1 s.2 len ++
        sampleLoop stepMeters total rest (cumDist + len)

/-- sampleLineStringWithT(coords, stepMeters): per-segment samples followed
by one final sample at the last vertex with t = 1 exactly; empty when the
polyline has fewer than 2 vertices. -/
def sampleLineStringWithT (coords : List (ℝ × ℝ)) (stepMeters : ℝ) : List Sample :=
  if coords.length < 2 then []
  else
    let cosLat := cosLatOf (coords.headD (0, 0)).2
    let lens := segLens cosLat coords
    let total := lens.sum
    sampleLoop stepMeters total ((segsOf coords).zip lens) 0 ++
      [⟨(coords.getLastD (0, 0)).1, (coords.getLastD (0, 0)).2, 1⟩]

/-- The sub-polyline extraction loop (the for-loop of subLineString):
points accumulates the emitted vertices, cumDist the length walked so far;
the continue, break and first-point branches mirror the source. -/
def subLoop (startDist endDist : ℝ) :
    List (((ℝ × ℝ) × (ℝ × ℝ)) × ℝ) → ℝ → List (ℝ × ℝ) → List (ℝ × ℝ)
  | [], _, points => points
  | (s, segLen) :: rest, cumDist, points =>
      let segStart := cumDist
      let segEnd := cumDist + segLen
      if segEnd < startDist then subLoop startDist endDist rest segEnd points
      else if endDist < segStart then points
      else
        let a := s.1
        let b := s.2
        let points1 :=
          if points = [] then
            let localT : ℝ :=
              if 0 < segLen then max 0 ((startDist - segStart) / segLen) else 0
            points ++ [(a.1 + (b.1 - a.1) * localT, a.2 + (b.2 - a.2) * localT)]
          else points
        if segEnd ≤ endDist then
          subLoop startDist endDist rest segEnd (points1 ++ [b])
        else
          let localT : ℝ := if 0 < segLen then (endDist - segStart) / segLen else 0
          points1 ++ [(a.1 + (b.1 - a.1) * localT, a.2 + (b.2 - a.2) * localT)]

/-- subLineString(coords, t0, t1): the contiguous sub-polyline between
normalized positions t0 and t1; none when t0 >= t1, fewer than 2 vertices,
zero total length, or fewer than 2 emitted points. -/
def subLineString (coords : List (ℝ × ℝ)) (t0 t1 : ℝ) : Option (List (ℝ × ℝ)) :=
  if t1 ≤ t0 ∨ coords.length < 2 then none
  else
    let cosLat := cosLatOf (coords.headD (0, 0)).2
    let lens := segLens cosLat coords
    let total := lens.sum
    if total = 0 then none
    else
      let startDist := t0 * total
      let endDist := t1 * total
      let points := subLoop startDist endDist ((segsOf coords).zip lens) 0 []
      if 2 ≤ points.length then some points else none

-- ── Engine state, constants and the position step ───────────────────────────

/-- A badge as queued for presentation. -/
structure Badge where
  id : String
  emoji : String
  name : String
deriving Inhabited, DecidableEq

/-- A badge definition with its validated-street-count threshold. -/
structure BadgeDef where
  id : String
  emoji : String
  name : String
  threshold : ℕ

def SAVE_EVERY_N : ℕ := 10
def SAMPLE_STEP_METERS : ℝ := 5
def COVERAGE_RADIUS_METERS : ℝ := 15
def VALIDATION_THRESHOLD : ℝ := 0.80
def MAP_MATCH_MAX_DIST : ℝ := 50

def BADGE_DEFS : List BadgeDef :=
  [⟨"first_step", "A", "Premier pas", 1⟩,
   ⟨"explorer", "B", "Explorateur", 50⟩,
   ⟨"walker", "C", "Marcheur", 125⟩,
   ⟨"connoisseur", "D", "Connaisseur", 249⟩,
   ⟨"master", "E", "Maitre de Marly", 498⟩]

/-- The snapshot payload handed to saveExploration. -/
structure Snapshot where
  userId : String
  city : String
  exploredWayIds : Finset ℤ
  totalWays : ℕ
  badges : Finset String
deriving DecidableEq

/-- The engine state owned by MapView: loaded streets (none before load),
coverage entries, the validated-way-id set, the save counter, badge state
and the user/city identity.  An empty userId models a null user. -/
structure EngineState where
  streets : Option (List (ℤ × List (ℝ × ℝ)))
  coverages : List SegmentCoverage
  validatedWayIds : Finset ℤ
  savedCount : ℕ
  exploredCount : ℕ
  unlockedBadges : Finset String
  badgeQueue : List Badge
  currentBadge : Option Badge
  userId : String
  city : String

/-- Events observable in one position step: the way validated by it (the
console log on validation) and the emitted snapshot-save request. -/
structure StepOut where
  validatedWay : Option ℤ
  save : Option Snapshot
deriving DecidableEq

def noOut : StepOut := ⟨none, none⟩

/-- Step 3 of updatePosition: mark every not-yet-covered sample within the
coverage radius of the snapped point as covered, widening
minCoveredT/maxCoveredT; the Bool is the touched flag. -/
def markCovered (sx sy : ℝ) (cov : SegmentCoverage) : SegmentCoverage × Bool :=
  let r := (cov.samples.zip cov.covered).foldl
    (fun (acc : List Bool × ℝ × ℝ × Bool) (p : Sample × Bool) =>
      if p.2 then (acc.1 ++ [p.2], acc.2.1, acc.2.2.1, acc.2.2.2)
      else if distancePointToPoint p.1.lon p.1.lat sx sy ≤ COVERAGE_RADIUS_METERS then
        (acc.1 ++ [true],
          if p.1.t < acc.2.1 then p.1.t else acc.2.1,
          if acc.2.2.1 < p.1.t then p.1.t else acc.2.2.1,
          true)
      else (acc.1 ++ [false], acc.2.1, acc.2.2.1, acc.2.2.2))
    ([], cov.minCoveredT, cov.maxCoveredT, false)
  ({ cov with covered := r.1, minCoveredT := r.2.1, maxCoveredT := r.2.2.1 }, r.2.2.2)

/-- Step 5's ratio: covered true-count over the sample count. -/
def coveredFraction (cov : SegmentCoverage) : ℝ :=
  ((cov.covered.count true : ℕ) : ℝ) / ((cov.samples.length : ℕ) : ℝ)

/-- Steps 5+ of updatePosition once the threshold check has passed: mark
the winner validated, grow the validated set, recompute the explored
count, derive newly crossed badges (appending them to the queue and
popping one into the empty display slot), and emit the batched snapshot
save when at least SAVE_EVERY_N validations have accumulated since the
last save. -/
def validateAndDerive (s : EngineState) (idx : ℕ) (wayId : ℤ)
    (cov2 : SegmentCoverage) : EngineState × StepOut :=
  let cov3 := { cov2 with validated := true }
  let vIds := insert wayId s.validatedWayIds
  let currentSize := vIds.card
  let newBadges := BADGE_DEFS.filter
    (fun b => b.id ∉ s.unlockedBadges ∧ b.threshold ≤ currentSize)
  let unlocked' := newBadges.foldl (fun u b => insert b.id u) s.unlockedBadges
  let queue1 := s.badgeQueue ++ newBadges.map (fun b => ⟨b.id, b.emoji, b.name⟩)
  let popped :=
    if newBadges ≠ [] ∧ s.currentBadge = none then
      match queue1 with
      | [] => (queue1, s.currentBadge)
      | h :: tl => (tl, some h)
    else (queue1, s.currentBadge)
  let total := (s.streets.getD []).length
  let doSave := s.userId ≠ "" ∧
    (SAVE_EVERY_N : ℤ) ≤ (currentSize : ℤ) - (s.savedCount : ℤ)
  ({ s with
      coverages := s.coverages.set idx cov3,
      validatedWayIds := vIds,
      exploredCount := currentSize,
      unlockedBadges := unlocked',
      badgeQueue := popped.1,
      currentBadge := popped.2,
      savedCount := if doSave then currentSize else s.savedCount },
    ⟨some wayId,
      if doSave then
        some ⟨s.userId, s.city, vIds, total, unlocked'⟩
      else none⟩)

/-- updatePosition(lon, lat): the whole per-fix engine step — guard on
loaded data, map matching with the 50 m ceiling, early exit on a validated
winner, sample marking, validation thresholding, badge derivation and the
batched snapshot save.  A projection crash (empty coordinate list) leaves
the state unchanged: the exception aborts the handler before any coverage
mutation. -/
def updatePosition (lon lat : ℝ) (s : EngineState) : EngineState × StepOut :=
  if s.streets = none ∨ s.coverages = [] then (s, noOut)
  else
    match findNearestSegment lon lat s.coverages with
    | none => (s, noOut)
    | some none => (s, noOut)
    | some (some m) =>
        if (MAP_MATCH_MAX_DIST : WithTop ℝ) < m.distance then (s, noOut)
        else
          let cov := m.coverage
          if cov.validated then (s, noOut)
          else
            let mc := markCovered m.snappedLon m.snappedLat cov
            if mc.2 = false then (s, noOut)
            else
              let cov2 := mc.1
              if coveredFraction cov2 < VALIDATION_THRESHOLD then
                ({ s with coverages := s.coverages.set m.idx cov2 }, noOut)
              else
                validateAndDerive s m.idx cov.wayId cov2

/-- A freshly built coverage entry for one loaded street. -/
def initCoverage (idx : ℕ) (street : ℤ × List (ℝ × ℝ)) : SegmentCoverage :=
  let samples := sampleLineStringWithT street.2 SAMPLE_STEP_METERS
  ⟨street.1, idx, street.2, samples, List.replicate samples.length false, false, 1, 0⟩

/-- The restore mutation applied to one found coverage entry: validated,
covered filled with true, full [0,1] covered range. -/
def forceValidated (c : SegmentCoverage) : SegmentCoverage :=
  { c with
      validated := true,
      covered := List.replicate c.covered.length true,
      minCoveredT := 0,
      maxCoveredT := 1 }

/-- The per-id restore mutation: add the id to the validated set and, when
a coverage with that wayId exists, force it fully covered and validated
(the source's find mutates the first match). -/
def restoreOne (st : List SegmentCoverage × Finset ℤ) (id : ℤ) :
    List SegmentCoverage × Finset ℤ :=
  let vs := insert id st.2
  match st.1.findIdx? (fun c => c.wayId = id) with
  | none => (st.1, vs)
  | some j => (st.1.set j (forceValidated (st.1.getD j default)), vs)

/-- The map-load handler's restore block: build the coverage entries, apply
every saved id in order, seed badges, and set both counters to the raw
length of the saved-id list. -/
def restoreState (userId city : String) (streets : List (ℤ × List (ℝ × ℝ)))
    (savedIds : List ℤ) (savedBadges : List String) : EngineState :=
  let covs0 := (List.range streets.length).zipWith initCoverage streets
  let r := savedIds.foldl restoreOne (covs0, (∅ : Finset ℤ))
  { streets := some streets,
    coverages := r.1,
    validatedWayIds := r.2,
    savedCount := savedIds.length,
    exploredCount := savedIds.length,
    unlockedBadges := savedBadges.foldl (fun u b => insert b u) ∅,
    badgeQueue := [],
    currentBadge := none,
    userId := userId,
    city := city }

/-- The validated full-street geometry pushed to the streets-explored
source: the loaded streets whose wayId is in the validated set. -/
def validatedGeometry (s : EngineState) : List (ℤ × List (ℝ × ℝ)) :=
  (s.streets.getD []).filter (fun st => st.1 ∈ s.validatedWayIds)

/-- The useEffect cleanup's final flush: one snapshot exactly when a user
id and loaded data exist and the validated count exceeds the saved count. -/
def teardown (s : EngineState) : Option Snapshot :=
  if s.userId ≠ "" ∧ s.streets ≠ none ∧ s.savedCount < s.validatedWayIds.card then
    some ⟨s.userId, s.city, s.validatedWayIds, (s.streets.getD []).length, s.unlockedBadges⟩
  else none

-- ── Theorems ────────────────────────────────────────────────────────────────

theorem validation_threshold_eq : VALIDATION_THRESHOLD = (4 : ℝ) / 5 := by
  norm_num [VALIDATION_THRESHOLD]

/-- C2: the validation check of updatePosition (ratio = count of covered
samples over N, compared against the 0.80 threshold; the entry becomes
validated exactly when the check does not fail) succeeds on a coverage with
exactly ceil(0.80*N) of its N samples covered and fails with one fewer
sample covered. -/
theorem threshold_boundary (cov cov' : SegmentCoverage) (N : ℕ) (hN : 1 ≤ N)
    (hs : cov.samples.length = N) (hs' : cov'.samples.length = N)
    (hc : cov.covered.count true = ⌈VALIDATION_THRESHOLD * (N : ℝ)⌉₊)
    (hc' : cov'.covered.count true = ⌈VALIDATION_THRESHOLD * (N : ℝ)⌉₊ - 1) :
    ¬ coveredFraction cov < VALIDATION_THRESHOLD ∧
      coveredFraction cov' < VALIDATION_THRESHOLD := by
  have hNpos : (0 : ℝ) < (N : ℝ) := by exact_mod_cast hN
  have h45 : (0 : ℝ) ≤ VALIDATION_THRESHOLD * (N : ℝ) := by
    rw [validation_threshold_eq]; positivity
  have hkpos : 1 ≤ ⌈VALIDATION_THRESHOLD * (N : ℝ)⌉₊ := by
    rw [Nat.one_le_iff_ne_zero, ← Nat.pos_iff_ne_zero, Nat.ceil_pos,
      validation_threshold_eq]
    positivity
  constructor
  · rw [not_lt, coveredFraction, hs, hc, le_div_iff₀ hNpos]
    exact Nat.le_ceil _
  · rw [coveredFraction, hs', hc', div_lt_iff₀ hNpos]
    have h1 : ((⌈VALIDATION_THRESHOLD * (N : ℝ)⌉₊ - 1 : ℕ) : ℝ) =
        (⌈VALIDATION_THRESHOLD * (N : ℝ)⌉₊ : ℝ) - 1 := by
      push_cast [hkpos]; ring
    have h2 : (⌈VALIDATION_THRESHOLD * (N : ℝ)⌉₊ : ℝ) <
        VALIDATION_THRESHOLD * (N : ℝ) + 1 := Nat.ceil_lt_add_one h45
    rw [h1]
    linarith

/-- A concrete 5-sample coverage with 4 covered samples. -/
def fiveCovA : SegmentCoverage :=
  ⟨1, 0, [], List.replicate 5 default, [true, true, true, true, false], false, 1, 0⟩

/-- A concrete 5-sample coverage with 3 covered samples. -/
def fiveCovB : SegmentCoverage :=
  ⟨2, 0, [], List.replicate 5 default, [true, true, true, false, false], false, 1, 0⟩

theorem threshold_boundary_witness :
    ¬ coveredFraction fiveCovA < VALIDATION_THRESHOLD ∧
      coveredFraction fiveCovB < VALIDATION_THRESHOLD := by
  have hceil : ⌈VALIDATION_THRESHOLD * ((5 : ℕ) : ℝ)⌉₊ = 4 := by
    rw [validation_threshold_eq]
    rw [show (4 : ℝ) / 5 * ((5 : ℕ) : ℝ) = 4 by push_cast; ring]
    simp
  exact threshold_boundary fiveCovA fiveCovB 5 (by norm_num)
    (by simp [fiveCovA]) (by simp [fiveCovB])
    (by rw [hceil]; rfl) (by rw [hceil]; rfl)

/-- A coverage entry built from a street with an empty coordinate list. -/
def emptyCoordCov : SegmentCoverage := ⟨7, 0, [], [], [], false, 1, 0⟩

/-- C7 (failing part): with a zero-vertex street's coverage entry present,
findNearestSegment does not skip the entry — projectOntoLineString reads
coords[0] of the empty array and the handler dies with a TypeError
(modelled as none), contradicting the claim that degenerate entries are
excluded from matching without failure. -/
theorem degenerate_entry_crashes :
    findNearestSegment 0 0 [emptyCoordCov] = none ∧
      projectOntoLineString 0 0 emptyCoordCov.coords = none := by
  constructor
  · simp [findNearestSegment, nearLoop, projectOntoLineString, emptyCoordCov]
  · rfl

-- ── C1: nearest-segment search ──────────────────────────────────────────────

/-- The projection distance of a coverage entry as seen by the search loop
(top for a crash or for an entry the running minimum never beats). -/
def projD (px py : ℝ) (c : SegmentCoverage) : WithTop ℝ :=
  ((projectOntoLineString px py c.coords).map Proj.distance).getD ⊤

theorem projStep_bestDist_le (px py cosLat total : ℝ) (st : ProjState)
    (a b : ℝ × ℝ) (len : ℝ) :
    (projStep px py cosLat total st a b len).bestDist ≤ st.bestDist := by
  simp only [projStep]
  repeat' split
  all_goals first | exact le_of_lt (by assumption) | exact le_rfl

/-- Starting from the Infinity seed, one loop iteration always produces a
finite running minimum. -/
theorem projStep_top (px py cosLat total : ℝ) (st : ProjState)
    (a b : ℝ × ℝ) (len : ℝ) (h : st.bestDist = ⊤) :
    (projStep px py cosLat total st a b len).bestDist < ⊤ := by
  simp only [projStep]
  repeat' split
  all_goals simp_all [WithTop.coe_lt_top]

theorem projLoop_bestDist_le (px py cosLat total : ℝ) :
    ∀ (l : List (((ℝ × ℝ) × (ℝ × ℝ)) × ℝ)) (st : ProjState),
      (projLoop px py cosLat total l st).bestDist ≤ st.bestDist := by
  intro l
  induction l with
  | nil => intro st; exact le_rfl
  | cons x xs ih =>
      intro st
      calc (projLoop px py cosLat total (x :: xs) st).bestDist
          ≤ (projStep px py cosLat total st x.1.1 x.1.2 x.2).bestDist := ih _
        _ ≤ st.bestDist := projStep_bestDist_le _ _ _ _ _ _ _ _

theorem projectOntoLineString_isSome (px py : ℝ) (coords : List (ℝ × ℝ))
    (h : coords ≠ []) : ∃ p, projectOntoLineString px py coords = some p := by
  cases coords with
  | nil => exact absurd rfl h
  | cons c0 cs => exact ⟨_, rfl⟩

/-- A polyline with at least two vertices always projects to a finite
distance: the first loop iteration replaces the Infinity seed. -/
theorem projectOntoLineString_lt_top (px py : ℝ) (coords : List (ℝ × ℝ))
    (h2 : 2 ≤ coords.length) (p : Proj)
    (hp : projectOntoLineString px py coords = some p) : p.distance < ⊤ := by
  match coords, h2 with
  | c0 :: c1 :: cs, _ =>
    have hred : projectOntoLineString px py (c0 :: c1 :: cs) =
        some ⟨(projLoop px py (cosLatOf py) (segLens (cosLatOf py) (c0 :: c1 :: cs)).sum
            ((segsOf (c0 :: c1 :: cs)).zip (segLens (cosLatOf py) (c0 :: c1 :: cs)))
            ⟨⊤, 0, c0.1, c0.2, 0⟩).bestT,
          (projLoop px py (cosLatOf py) (segLens (cosLatOf py) (c0 :: c1 :: cs)).sum
            ((segsOf (c0 :: c1 :: cs)).zip (segLens (cosLatOf py) (c0 :: c1 :: cs)))
            ⟨⊤, 0, c0.1, c0.2, 0⟩).bestLon,
          (projLoop px py (cosLatOf py) (segLens (cosLatOf py) (c0 :: c1 :: cs)).sum
            ((segsOf (c0 :: c1 :: cs)).zip (segLens (cosLatOf py) (c0 :: c1 :: cs)))
            ⟨⊤, 0, c0.1, c0.2, 0⟩).bestLat,
          (projLoop px py (cosLatOf py) (segLens (cosLatOf py) (c0 :: c1 :: cs)).sum
            ((segsOf (c0 :: c1 :: cs)).zip (segLens (cosLatOf py) (c0 :: c1 :: cs)))
            ⟨⊤, 0, c0.1, c0.2, 0⟩).bestDist⟩ := rfl
    have hpX := hp.symm.trans hred
    simp only [Option.some.injEq] at hpX
    have hpd : p.distance =
        (projLoop px py (cosLatOf py) (segLens (cosLatOf py) (c0 :: c1 :: cs)).sum
          ((segsOf (c0 :: c1 :: cs)).zip (segLens (cosLatOf py) (c0 :: c1 :: cs)))
          ⟨⊤, 0, c0.1, c0.2, 0⟩).bestDist := by
      rw [hpX]
    rw [hpd]
    have hsegs : segsOf (c0 :: c1 :: cs) = (c0, c1) :: segsOf (c1 :: cs) := by
      simp [segsOf]
    have hlens : segLens (cosLatOf py) (c0 :: c1 :: cs) =
        planarLen (cosLatOf py) c0 c1 :: segLens (cosLatOf py) (c1 :: cs) := by
      simp [segLens, hsegs]
    rw [hsegs, hlens, List.zip_cons_cons, projLoop]
    exact lt_of_le_of_lt (projLoop_bestDist_le _ _ _ _ _ _)
      (projStep_top _ _ _ _ _ _ _ _ rfl)

/-- Main loop lemma for findNearestSegment: with no crashing entry, the
loop returns a state that either kept the incoming one (every remaining
distance at least the incoming best) or holds the first strict improvement
achieving the minimum over the remaining entries. -/
theorem nearLoop_spec (px py : ℝ) :
    ∀ (rest : List SegmentCoverage) (i : ℕ) (st : NearState),
      (∀ c ∈ rest, c.coords ≠ []) →
      ∃ stf, nearLoop px py rest i st = some stf ∧
        ((stf = st ∧ ∀ c ∈ rest, st.bestDist ≤ projD px py c) ∨
         (∃ j, j < rest.length ∧
            (∃ p, projectOntoLineString px py (rest.getD j default).coords = some p ∧
              stf = ⟨p.distance, some (i + j, rest.getD j default), p.t, p.lon, p.lat⟩) ∧
            stf.bestDist = projD px py (rest.getD j default) ∧
            stf.bestDist < st.bestDist ∧
            (∀ c ∈ rest, stf.bestDist ≤ projD px py c) ∧
            (∀ k < j, stf.bestDist < projD px py (rest.getD k default)))) := by
  intro rest
  induction rest with
  | nil =>
      intro i st _
      exact ⟨st, rfl, Or.inl ⟨rfl, by intro c hc; exact absurd hc (by simp)⟩⟩
  | cons c rest' ih =>
      intro i st hcr
      obtain ⟨p, hp⟩ := projectOntoLineString_isSome px py c.coords
        (hcr c (by simp))
      have hpd : projD px py c = p.distance := by simp [projD, hp]
      simp only [nearLoop, hp]
      by_cases hlt : p.distance < st.bestDist
      · rw [if_pos hlt]
        obtain ⟨stf, hrun, hcase⟩ := ih (i + 1)
          ⟨p.distance, some (i, c), p.t, p.lon, p.lat⟩
          (fun c' hc' => hcr c' (by simp [hc']))
        refine ⟨stf, hrun, Or.inr ?_⟩
        rcases hcase with ⟨hst, hmin⟩ | ⟨j, hj, ⟨q, hq, hstf⟩, hbd, hblt, hball, hbfst⟩
        · refine ⟨0, by simp, ⟨p, by simpa using hp, by simp [hst]⟩, ?_, ?_, ?_, ?_⟩
          · rw [hst]; simp [hpd]
          · rw [hst]; exact hlt
          · intro c' hc'
            rw [hst]
            rcases List.mem_cons.mp hc' with h | h
            · subst h; simp [hpd]
            · exact hmin c' h
          · intro k hk; exact absurd hk (by omega)
        · refine ⟨j + 1, by simpa using Nat.succ_lt_succ hj,
            ⟨q, by simpa using hq,
              by rw [show i + (j + 1) = i + 1 + j by omega]; simpa using hstf⟩,
            by simpa using hbd,
            lt_trans hblt hlt, ?_, ?_⟩
          · intro c' hc'
            rcases List.mem_cons.mp hc' with h | h
            · subst h
              rw [hpd]
              exact le_of_lt (lt_of_lt_of_le hblt le_rfl)
            · exact hball c' h
          · intro k hk
            cases k with
            | zero => simpa [hpd] using hblt
            | succ k' => exact hbfst k' (by omega)
      · rw [if_neg hlt]
        obtain ⟨stf, hrun, hcase⟩ := ih (i + 1) st
          (fun c' hc' => hcr c' (by simp [hc']))
        refine ⟨stf, hrun, ?_⟩
        rcases hcase with ⟨hst, hmin⟩ | ⟨j, hj, ⟨q, hq, hstf⟩, hbd, hblt, hball, hbfst⟩
        · refine Or.inl ⟨hst, ?_⟩
          intro c' hc'
          rcases List.mem_cons.mp hc' with h | h
          · subst h; rw [hpd]; exact le_of_not_lt hlt
          · exact hmin c' h
        · refine Or.inr ⟨j + 1, by simpa using Nat.succ_lt_succ hj,
            ⟨q, by simpa using hq,
              by rw [show i + (j + 1) = i + 1 + j by omega]; simpa using hstf⟩,
            by simpa using hbd, hblt, ?_, ?_⟩
          · intro c' hc'
            rcases List.mem_cons.mp hc' with h | h
            · subst h
              rw [hpd]
              exact le_trans (le_of_lt hblt) (le_of_not_lt hlt)
            · exact hball c' h
          · intro k hk
            cases k with
            | zero =>
                simp only [List.getD_cons_zero, hpd]
                exact lt_of_lt_of_le hblt (le_of_not_lt hlt)
            | succ k' => exact hbfst k' (by omega)

/-- C1 (amended): on a non-empty coverage list in which every entry has at
least two vertices, findNearestSegment returns the entry achieving the
global minimum projection distance, keeping the first-encountered entry on
exact distance ties (strictly smaller than every earlier entry), together
with that entry's projection data. -/
theorem nearest_is_first_argmin (px py : ℝ) (covs : List SegmentCoverage)
    (hne : covs ≠ []) (h2 : ∀ c ∈ covs, 2 ≤ c.coords.length) :
    ∃ m, findNearestSegment px py covs = some (some m) ∧
      m.idx < covs.length ∧
      m.coverage = covs.getD m.idx default ∧
      (∃ p, projectOntoLineString px py m.coverage.coords = some p ∧
        m.distance = p.distance ∧ m.t = p.t ∧
        m.snappedLon = p.lon ∧ m.snappedLat = p.lat) ∧
      (∀ c ∈ covs, m.distance ≤ projD px py c) ∧
      (∀ k < m.idx, m.distance < projD px py (covs.getD k default)) := by
  have hcr : ∀ c ∈ covs, c.coords ≠ [] := by
    intro c hc
    have := h2 c hc
    intro hnil
    rw [hnil] at this
    simp at this
  obtain ⟨stf, hrun, hcase⟩ := nearLoop_spec px py covs 0 ⟨⊤, none, 0, px, py⟩ hcr
  rcases hcase with ⟨hst, hmin⟩ | ⟨j, hj, ⟨p, hp, hstf⟩, hbd, _, hball, hbfst⟩
  · exfalso
    cases covs with
    | nil => exact hne rfl
    | cons c0 cs =>
        have hle : (⊤ : WithTop ℝ) ≤ projD px py c0 := hmin c0 (by simp)
        obtain ⟨p0, hp0⟩ := projectOntoLineString_isSome px py c0.coords
          (hcr c0 (by simp))
        have hfin : p0.distance < ⊤ :=
          projectOntoLineString_lt_top px py c0.coords (h2 c0 (by simp)) p0 hp0
        rw [projD, hp0] at hle
        simp only [Option.map_some', Option.getD_some] at hle
        exact absurd (lt_of_lt_of_le hfin hle) (lt_irrefl _)
  · refine ⟨⟨j, covs.getD j default, stf.bestT, stf.bestLon, stf.bestLat, stf.bestDist⟩,
      ?_, hj, rfl, ⟨p, hp, ?_, ?_, ?_, ?_⟩, ?_, ?_⟩
    · rw [findNearestSegment, if_neg hne, hrun]
      simp only [Option.map_some']
      rw [hstf]
      simp
    · rw [hstf]
    · rw [hstf]
    · rw [hstf]
    · rw [hstf]
    · intro c hc; exact hball c hc
    · intro k hk; exact hbfst k hk

/-- A coverage entry over a two-vertex street, both vertices at the
origin. -/
def zeroSegCov : SegmentCoverage := ⟨4, 0, [(0, 0), (0, 0)], [], [], false, 1, 0⟩

theorem nearest_is_first_argmin_witness :
    ([zeroSegCov] : List SegmentCoverage) ≠ [] ∧
      ∃ m, findNearestSegment 0 0 [zeroSegCov] = some (some m) ∧
        m.idx < [zeroSegCov].length ∧
        m.coverage = [zeroSegCov].getD m.idx default ∧
        (∃ p, projectOntoLineString 0 0 m.coverage.coords = some p ∧
          m.distance = p.distance ∧ m.t = p.t ∧
          m.snappedLon = p.lon ∧ m.snappedLat = p.lat) ∧
        (∀ c ∈ [zeroSegCov], m.distance ≤ projD 0 0 c) ∧
        (∀ k < m.idx, m.distance < projD 0 0 ([zeroSegCov].getD k default)) :=
  ⟨by simp, nearest_is_first_argmin 0 0 [zeroSegCov] (by simp)
    (by intro c hc; simp only [List.mem_singleton] at hc; subst hc; simp [zeroSegCov])⟩

/-- A coverage entry whose street has exactly one vertex. -/
def oneVertexCov : SegmentCoverage := ⟨3, 0, [(0, 0)], [], [], false, 1, 0⟩

/-- C1 (counterexample): a non-empty coverage list made of a single-vertex
entry makes findNearestSegment return null — no entry at all — although
the claim demands the minimum-distance entry of every non-empty list. -/
theorem nearest_nonempty_returns_null :
    findNearestSegment 0 0 [oneVertexCov] = some none ∧
      ([oneVertexCov] : List SegmentCoverage) ≠ [] := by
  constructor
  · have hproj : projectOntoLineString 0 0 oneVertexCov.coords =
        some ⟨0, 0, 0, ⊤⟩ := by
      simp [projectOntoLineString, oneVertexCov, segsOf, segLens, projLoop]
    rw [findNearestSegment, if_neg (by simp), nearLoop, hproj]
    simp [nearLoop]
  · simp

-- ── Step case analysis ──────────────────────────────────────────────────────

theorem getD_set_ne' {α : Type} [Inhabited α] (l : List α) (j i : ℕ) (v : α)
    (h : i ≠ j) : (l.set j v).getD i default = l.getD i default := by
  simp [List.getD_eq_getElem?_getD, List.getElem?_set_ne (Ne.symm h)]

theorem getD_set_self' {α : Type} [Inhabited α] (l : List α) (j : ℕ) (v : α)
    (h : j < l.length) : (l.set j v).getD j default = v := by
  simp [List.getD_eq_getElem?_getD, List.getElem?_set_self, h]

/-- The search loop either keeps the incoming best entry or returns an
entry of the processed list, indexed consistently. -/
theorem nearLoop_best (px py : ℝ) :
    ∀ (rest : List SegmentCoverage) (i : ℕ) (st stf : NearState),
      nearLoop px py rest i st = some stf →
      stf.best = st.best ∨
        ∃ j, j < rest.length ∧ stf.best = some (i + j, rest.getD j default) := by
  intro rest
  induction rest with
  | nil =>
      intro i st stf h
      rw [nearLoop] at h
      exact Or.inl (by rw [← Option.some_inj.mp h])
  | cons c rest' ih =>
      intro i st stf h
      rw [nearLoop] at h
      cases hp : projectOntoLineString px py c.coords with
      | none => rw [hp] at h; exact absurd h (by simp)
      | some p =>
          rw [hp] at h
          simp only at h
          by_cases hlt : p.distance < st.bestDist
          · rw [if_pos hlt] at h
            rcases ih (i + 1) _ stf h with h0 | ⟨j, hj, hbest⟩
            · exact Or.inr ⟨0, by simp, by simpa using h0⟩
            · exact Or.inr ⟨j + 1, by simpa using Nat.succ_lt_succ hj,
                by rw [show i + (j + 1) = i + 1 + j by omega]; simpa using hbest⟩
          · rw [if_neg hlt] at h
            rcases ih (i + 1) _ stf h with h0 | ⟨j, hj, hbest⟩
            · exact Or.inl h0
            · exact Or.inr ⟨j + 1, by simpa using Nat.succ_lt_succ hj,
                by rw [show i + (j + 1) = i + 1 + j by omega]; simpa using hbest⟩

/-- A successful match indexes its own coverage entry in the list. -/
theorem findNearest_idx (px py : ℝ) (covs : List SegmentCoverage) (m : NearMatch)
    (h : findNearestSegment px py covs = some (some m)) :
    m.idx < covs.length ∧ m.coverage = covs.getD m.idx default := by
  rw [findNearestSegment] at h
  by_cases hne : covs = []
  · rw [if_pos hne] at h
    exact absurd (Option.some_inj.mp h) (by simp)
  · rw [if_neg hne] at h
    obtain ⟨stf, hrun, hmap⟩ := Option.map_eq_some'.mp h
    rcases hbest : stf.best with _ | ⟨i, c⟩
    · rw [hbest] at hmap; exact absurd hmap (by simp)
    · rw [hbest] at hmap
      simp only [Option.some_inj] at hmap
      have hm : m = ⟨i, c, stf.bestT, stf.bestLon, stf.bestLat, stf.bestDist⟩ :=
        hmap.symm
      rcases nearLoop_best px py covs 0 _ stf hrun with h0 | ⟨j, hj, hb⟩
      · rw [hbest] at h0; exact absurd h0 (by simp)
      · rw [hbest] at hb
        simp only [Nat.zero_add, Option.some_inj, Prod.mk.injEq] at hb
        refine ⟨?_, ?_⟩
        · rw [hm]; simpa [← hb.1] using hj
        · rw [hm]; simp [hb.1, hb.2]

/-- Exhaustive outcome analysis of one position step: either the fix is a
no-op (guard, crash, null match, over-ceiling distance, validated winner,
or no sample touched), or only the matched entry is rewritten — below the
threshold as the marked copy, at or above it through validateAndDerive. -/
theorem updatePosition_cases (lon lat : ℝ) (s : EngineState) :
    updatePosition lon lat s = (s, noOut) ∨
    ∃ m, findNearestSegment lon lat s.coverages = some (some m) ∧
      ¬ (MAP_MATCH_MAX_DIST : WithTop ℝ) < m.distance ∧
      m.coverage.validated = false ∧
      (markCovered m.snappedLon m.snappedLat m.coverage).2 = true ∧
      ((coveredFraction (markCovered m.snappedLon m.snappedLat m.coverage).1 <
          VALIDATION_THRESHOLD ∧
        updatePosition lon lat s =
          ({ s with coverages :=
              s.coverages.set m.idx (markCovered m.snappedLon m.snappedLat m.coverage).1 },
            noOut)) ∨
       (¬ coveredFraction (markCovered m.snappedLon m.snappedLat m.coverage).1 <
          VALIDATION_THRESHOLD ∧
        updatePosition lon lat s =
          validateAndDerive s m.idx m.coverage.wayId
            (markCovered m.snappedLon m.snappedLat m.coverage).1)) := by
  by_cases hg : s.streets = none ∨ s.coverages = []
  · left; unfold updatePosition; rw [if_pos hg]
  · cases hn : findNearestSegment lon lat s.coverages with
    | none => left; unfold updatePosition; rw [if_neg hg, hn]
    | some o =>
        cases o with
        | none => left; unfold updatePosition; rw [if_neg hg, hn]
        | some m =>
            by_cases h50 : (MAP_MATCH_MAX_DIST : WithTop ℝ) < m.distance
            · left
              unfold updatePosition
              rw [if_neg hg, hn]
              simp only [if_pos h50]
            · by_cases hv : m.coverage.validated = true
              · left
                unfold updatePosition
                rw [if_neg hg, hn]
                simp only [if_neg h50, if_pos hv]
              · by_cases ht : (markCovered m.snappedLon m.snappedLat m.coverage).2 = false
                · left
                  unfold updatePosition
                  rw [if_neg hg, hn]
                  simp only [if_neg h50, if_neg hv, if_pos ht]
                · by_cases hr : coveredFraction
                      (markCovered m.snappedLon m.snappedLat m.coverage).1 <
                      VALIDATION_THRESHOLD
                  · refine Or.inr ⟨m, rfl, h50, by simpa using hv, by simpa using ht,
                      Or.inl ⟨hr, ?_⟩⟩
                    unfold updatePosition
                    rw [if_neg hg, hn]
                    simp only [if_neg h50, if_neg hv, if_neg ht, if_pos hr]
                  · refine Or.inr ⟨m, rfl, h50, by simpa using hv, by simpa using ht,
                      Or.inr ⟨hr, ?_⟩⟩
                    unfold updatePosition
                    rw [if_neg hg, hn]
                    simp only [if_neg h50, if_neg hv, if_neg ht, if_neg hr]

theorem vad_validatedWayIds (s : EngineState) (idx : ℕ) (w : ℤ)
    (mc : SegmentCoverage) :
    (validateAndDerive s idx w mc).1.validatedWayIds = insert w s.validatedWayIds := rfl

theorem vad_coverages (s : EngineState) (idx : ℕ) (w : ℤ) (mc : SegmentCoverage) :
    (validateAndDerive s idx w mc).1.coverages =
      s.coverages.set idx { mc with validated := true } := rfl

theorem vad_unlockedBadges (s : EngineState) (idx : ℕ) (w : ℤ)
    (mc : SegmentCoverage) :
    (validateAndDerive s idx w mc).1.unlockedBadges =
      (BADGE_DEFS.filter (fun b => b.id ∉ s.unlockedBadges ∧
        b.threshold ≤ (insert w s.validatedWayIds).card)).foldl
        (fun u b => insert b.id u) s.unlockedBadges := rfl

theorem subset_foldl_insert (l : List BadgeDef) (u : Finset String) :
    u ⊆ l.foldl (fun acc b => insert b.id acc) u := by
  induction l generalizing u with
  | nil => exact fun x hx => hx
  | cons b l ih =>
      rw [List.foldl_cons]
      exact (Finset.subset_insert b.id u).trans (ih (insert b.id u))

/-- C4: one processed fix never shrinks the validated-way-id set or the
unlocked-badge set — both sets only gain elements, so their cardinalities
are non-decreasing across every fix of a session. -/
theorem monotone_validated_and_badges (lon lat : ℝ) (s : EngineState) :
    s.validatedWayIds ⊆ (updatePosition lon lat s).1.validatedWayIds ∧
    s.unlockedBadges ⊆ (updatePosition lon lat s).1.unlockedBadges ∧
    s.validatedWayIds.card ≤ (updatePosition lon lat s).1.validatedWayIds.card ∧
    s.unlockedBadges.card ≤ (updatePosition lon lat s).1.unlockedBadges.card := by
  have hsub : s.validatedWayIds ⊆ (updatePosition lon lat s).1.validatedWayIds ∧
      s.unlockedBadges ⊆ (updatePosition lon lat s).1.unlockedBadges := by
    rcases updatePosition_cases lon lat s with h | ⟨m, _, _, _, _, ⟨_, h⟩ | ⟨_, h⟩⟩
    · rw [h]; exact ⟨fun x hx => hx, fun x hx => hx⟩
    · rw [h]; exact ⟨fun x hx => hx, fun x hx => hx⟩
    · rw [h, vad_validatedWayIds, vad_unlockedBadges]
      exact ⟨Finset.subset_insert _ _, subset_foldl_insert _ _⟩
  exact ⟨hsub.1, hsub.2, Finset.card_le_card hsub.1, Finset.card_le_card hsub.2⟩

/-- C3: a validated coverage entry is terminal — no later fix changes any
of its fields — and a fix whose matched winner is already validated is a
complete no-op: unchanged state, no badge enqueued, no event emitted. -/
theorem validated_entries_terminal (lon lat : ℝ) (s : EngineState) :
    (∀ i, (s.coverages.getD i default).validated = true →
      (updatePosition lon lat s).1.coverages.getD i default =
        s.coverages.getD i default) ∧
    (∀ m, findNearestSegment lon lat s.coverages = some (some m) →
      ¬ (MAP_MATCH_MAX_DIST : WithTop ℝ) < m.distance →
      m.coverage.validated = true →
      updatePosition lon lat s = (s, noOut)) := by
  constructor
  · intro i hval
    rcases updatePosition_cases lon lat s with h | ⟨m, hn, _, hv, _, ⟨_, h⟩ | ⟨_, h⟩⟩
    · rw [h]
    · rw [h]
      by_cases hidx : i = m.idx
      · exfalso
        have hcov := (findNearest_idx lon lat s.coverages m hn).2
        rw [hidx, ← hcov] at hval
        rw [hval] at hv
        exact Bool.true_eq_false.mp hv
      · exact getD_set_ne' _ _ _ _ hidx
    · rw [h, vad_coverages]
      by_cases hidx : i = m.idx
      · exfalso
        have hcov := (findNearest_idx lon lat s.coverages m hn).2
        rw [hidx, ← hcov] at hval
        rw [hval] at hv
        exact Bool.true_eq_false.mp hv
      · exact getD_set_ne' _ _ _ _ hidx
  · intro m hn h50 hval
    rcases updatePosition_cases lon lat s with h | ⟨m', hn', h50', hv', _, hrest⟩
    · exact h
    · exfalso
      have hm : m = m' := by
        have := hn.symm.trans hn'
        simpa using this
      rw [← hm] at hv'
      rw [hval] at hv'
      exact Bool.true_eq_false.mp hv'

/-- C10: one fix mutates at most the matched entry — every index other
than the winner's keeps its coverage record — and a fix that matches
nothing, matches beyond the 50 m ceiling, or arrives with no loaded
streets or no coverage entries leaves the whole state unchanged. -/
theorem frame_at_most_one_entry (lon lat : ℝ) (s : EngineState) :
    (updatePosition lon lat s).1.coverages.length = s.coverages.length ∧
    (∀ m, findNearestSegment lon lat s.coverages = some (some m) →
      ∀ i, i ≠ m.idx →
        (updatePosition lon lat s).1.coverages.getD i default =
          s.coverages.getD i default) ∧
    (∀ m, findNearestSegment lon lat s.coverages = some (some m) →
      (MAP_MATCH_MAX_DIST : WithTop ℝ) < m.distance →
      updatePosition lon lat s = (s, noOut)) ∧
    (s.coverages = [] → updatePosition lon lat s = (s, noOut)) ∧
    (s.streets = none → updatePosition lon lat s = (s, noOut)) := by
  refine ⟨?_, ?_, ?_, ?_, ?_⟩
  · rcases updatePosition_cases lon lat s with h | ⟨m, _, _, _, _, ⟨_, h⟩ | ⟨_, h⟩⟩
    · rw [h]
    · rw [h]; exact List.length_set ..
    · rw [h, vad_coverages]; exact List.length_set ..
  · intro m hn i hi
    rcases updatePosition_cases lon lat s with h | ⟨m', hn', _, _, _, ⟨_, h⟩ | ⟨_, h⟩⟩
    · rw [h]
    · rw [h]
      have hm : m = m' := by simpa using hn.symm.trans hn'
      exact getD_set_ne' _ _ _ _ (by rw [← hm]; exact hi)
    · rw [h, vad_coverages]
      have hm : m = m' := by simpa using hn.symm.trans hn'
      exact getD_set_ne' _ _ _ _ (by rw [← hm]; exact hi)
  · intro m hn h50
    rcases updatePosition_cases lon lat s with h | ⟨m', hn', h50', _, _, _⟩
    · exact h
    · exfalso
      have hm : m = m' := by simpa using hn.symm.trans hn'
      rw [← hm] at h50'
      exact h50' h50
  · intro hc
    unfold updatePosition
    rw [if_pos (Or.inr hc)]
  · intro hs
    unfold updatePosition
    rw [if_pos (Or.inl hs)]

-- ── Concrete evaluation at an all-zero state ───────────────────────────────

theorem eval_project_zz :
    projectOntoLineString 0 0 [((0 : ℝ), (0 : ℝ)), (0, 0)] =
      some ⟨0, 0, 0, ((0 : ℝ) : WithTop ℝ)⟩ := by
  norm_num [projectOntoLineString, segsOf, segLens, planarLen, projLoop, projStep,
    cosLatOf, Real.sqrt_zero, WithTop.coe_lt_top]

/-- An already-validated coverage entry over the zero-length street. -/
def validatedZeroCov : SegmentCoverage := ⟨4, 0, [(0, 0), (0, 0)], [], [], true, 1, 0⟩

/-- A loaded one-street session whose single entry is already validated. -/
def stateC3 : EngineState :=
  ⟨some [(4, [(0, 0), (0, 0)])], [validatedZeroCov], {4}, 0, 1, ∅, [], none, "u", "ville"⟩

theorem eval_near_stateC3 :
    findNearestSegment 0 0 [validatedZeroCov] =
      some (some ⟨0, validatedZeroCov, 0, 0, 0, ((0 : ℝ) : WithTop ℝ)⟩) := by
  rw [findNearestSegment, if_neg (by simp)]
  have hc : validatedZeroCov.coords = [((0 : ℝ), (0 : ℝ)), (0, 0)] := rfl
  simp only [nearLoop, hc, eval_project_zz]
  norm_num [WithTop.coe_lt_top, nearLoop]

theorem validated_entries_terminal_witness :
    ((stateC3.coverages.getD 0 default).validated = true ∧
      (updatePosition 0 0 stateC3).1.coverages.getD 0 default =
        stateC3.coverages.getD 0 default) ∧
    updatePosition 0 0 stateC3 = (stateC3, noOut) :=
  ⟨⟨rfl, (validated_entries_terminal 0 0 stateC3).1 0 rfl⟩,
    (validated_entries_terminal 0 0 stateC3).2
      ⟨0, validatedZeroCov, 0, 0, 0, ((0 : ℝ) : WithTop ℝ)⟩
      eval_near_stateC3
      (by norm_num [MAP_MATCH_MAX_DIST])
      rfl⟩

/-- A pre-load session state: nothing fetched yet. -/
def stateEmpty : EngineState := ⟨none, [], ∅, 0, 0, ∅, [], none, "u", "ville"⟩

theorem frame_at_most_one_entry_witness :
    (updatePosition 0 0 stateC3).1.coverages.getD 1 default =
      stateC3.coverages.getD 1 default ∧
    updatePosition 0 0 stateEmpty = (stateEmpty, noOut) :=
  ⟨(frame_at_most_one_entry 0 0 stateC3).2.1
      ⟨0, validatedZeroCov, 0, 0, 0, ((0 : ℝ) : WithTop ℝ)⟩
      eval_near_stateC3 1 (by norm_num),
    (frame_at_most_one_entry 0 0 stateEmpty).2.2.2.1 rfl⟩

-- ── C9: persistence batching and final flush ───────────────────────────────

theorem vad_save (s : EngineState) (idx : ℕ) (w : ℤ) (mc : SegmentCoverage) :
    (validateAndDerive s idx w mc).2.save =
      (if s.userId ≠ "" ∧ (SAVE_EVERY_N : ℤ) ≤
          (((insert w s.validatedWayIds).card : ℕ) : ℤ) - (s.savedCount : ℤ) then
        some ⟨s.userId, s.city, insert w s.validatedWayIds, (s.streets.getD []).length,
          (BADGE_DEFS.filter (fun b => b.id ∉ s.unlockedBadges ∧
            b.threshold ≤ (insert w s.validatedWayIds).card)).foldl
            (fun u b => insert b.id u) s.unlockedBadges⟩
      else none) := rfl

theorem vad_savedCount (s : EngineState) (idx : ℕ) (w : ℤ) (mc : SegmentCoverage) :
    (validateAndDerive s idx w mc).1.savedCount =
      (if s.userId ≠ "" ∧ (SAVE_EVERY_N : ℤ) ≤
          (((insert w s.validatedWayIds).card : ℕ) : ℤ) - (s.savedCount : ℤ) then
        (insert w s.validatedWayIds).card
      else s.savedCount) := rfl

theorem vad_validatedWay (s : EngineState) (idx : ℕ) (w : ℤ) (mc : SegmentCoverage) :
    (validateAndDerive s idx w mc).2.validatedWay = some w := rfl

/-- C9: in a session with a user id, a position step emits a snapshot-save
request exactly when it is a validation event whose new validated count is
at least SAVE_EVERY_N beyond the saved counter; emitting one sets the
counter to the new count and not emitting leaves it; and the teardown
flush emits its single final snapshot exactly when the validated count
exceeds the saved counter. -/
theorem snapshot_save_policy (lon lat : ℝ) (s : EngineState) (hu : s.userId ≠ "") :
    ((updatePosition lon lat s).2.save ≠ none ↔
      ((updatePosition lon lat s).2.validatedWay ≠ none ∧
        (SAVE_EVERY_N : ℤ) ≤
          (((updatePosition lon lat s).1.validatedWayIds.card : ℕ) : ℤ) -
            (s.savedCount : ℤ))) ∧
    ((updatePosition lon lat s).2.save ≠ none →
      (updatePosition lon lat s).1.savedCount =
        (updatePosition lon lat s).1.validatedWayIds.card) ∧
    ((updatePosition lon lat s).2.save = none →
      (updatePosition lon lat s).1.savedCount = s.savedCount) ∧
    (s.streets ≠ none →
      (teardown s ≠ none ↔ s.savedCount < s.validatedWayIds.card)) := by
  have hteardown : s.streets ≠ none →
      (teardown s ≠ none ↔ s.savedCount < s.validatedWayIds.card) := by
    intro hst
    unfold teardown
    by_cases hc : s.savedCount < s.validatedWayIds.card
    · rw [if_pos ⟨hu, hst, hc⟩]
      simp [hc]
    · rw [if_neg (by intro h; exact hc h.2.2)]
      simp [hc]
  rcases updatePosition_cases lon lat s with h | ⟨m, _, _, _, _, ⟨_, h⟩ | ⟨_, h⟩⟩
  · rw [h]
    exact ⟨by simp [noOut], fun hx => absurd rfl hx, fun _ => rfl, hteardown⟩
  · rw [h]
    exact ⟨by simp [noOut], fun hx => absurd rfl hx, fun _ => rfl, hteardown⟩
  · rw [h]
    by_cases hd : (SAVE_EVERY_N : ℤ) ≤
        (((insert m.coverage.wayId s.validatedWayIds).card : ℕ) : ℤ) -
          (s.savedCount : ℤ)
    · have hcond : s.userId ≠ "" ∧ (SAVE_EVERY_N : ℤ) ≤
          (((insert m.coverage.wayId s.validatedWayIds).card : ℕ) : ℤ) -
            (s.savedCount : ℤ) := ⟨hu, hd⟩
      refine ⟨?_, ?_, ?_, hteardown⟩
      · rw [vad_save, if_pos hcond, vad_validatedWay, vad_validatedWayIds]
        simp [hd]
      · intro _
        rw [vad_savedCount, if_pos hcond, vad_validatedWayIds]
      · intro hx
        rw [vad_save, if_pos hcond] at hx
        exact absurd hx (by simp)
    · have hcond : ¬ (s.userId ≠ "" ∧ (SAVE_EVERY_N : ℤ) ≤
          (((insert m.coverage.wayId s.validatedWayIds).card : ℕ) : ℤ) -
            (s.savedCount : ℤ)) := by
        intro hx; exact hd hx.2
      refine ⟨?_, ?_, ?_, hteardown⟩
      · rw [vad_save, if_neg hcond, vad_validatedWayIds]
        simp [hd]
      · intro hx
        rw [vad_save, if_neg hcond] at hx
        exact absurd rfl hx
      · intro _
        rw [vad_savedCount, if_neg hcond]

theorem snapshot_save_policy_witness :
    ((updatePosition 0 0 stateC3).2.save ≠ none ↔
      ((updatePosition 0 0 stateC3).2.validatedWay ≠ none ∧
        (SAVE_EVERY_N : ℤ) ≤
          (((updatePosition 0 0 stateC3).1.validatedWayIds.card : ℕ) : ℤ) -
            (stateC3.savedCount : ℤ))) ∧
    ((updatePosition 0 0 stateC3).2.save ≠ none →
      (updatePosition 0 0 stateC3).1.savedCount =
        (updatePosition 0 0 stateC3).1.validatedWayIds.card) ∧
    ((updatePosition 0 0 stateC3).2.save = none →
      (updatePosition 0 0 stateC3).1.savedCount = stateC3.savedCount) ∧
    (stateC3.streets ≠ none →
      (teardown stateC3 ≠ none ↔
        stateC3.savedCount < stateC3.validatedWayIds.card)) :=
  snapshot_save_policy 0 0 stateC3 (by simp [stateC3])

-- ── C6: snapshot restore ────────────────────────────────────────────────────

theorem forceValidated_idem (c : SegmentCoverage) :
    forceValidated (forceValidated c) = forceValidated c := by
  simp [forceValidated]

theorem forceValidated_wayId (c : SegmentCoverage) :
    (forceValidated c).wayId = c.wayId := rfl

/-- Invariant of the restore fold: every entry whose street id has been
processed is the forced-validated initial entry, every other entry is
untouched. -/
def RestoreInv (streets : List (ℤ × List (ℝ × ℝ))) (done : List ℤ)
    (covs : List SegmentCoverage) : Prop :=
  covs.length = streets.length ∧
  ∀ i, i < streets.length →
    covs.getD i default =
      (if (streets.getD i default).1 ∈ done then
        forceValidated (initCoverage i (streets.getD i default))
       else initCoverage i (streets.getD i default))

theorem restoreInv_wayId (streets : List (ℤ × List (ℝ × ℝ))) (done : List ℤ)
    (covs : List SegmentCoverage) (h : RestoreInv streets done covs)
    (i : ℕ) (hi : i < streets.length) :
    (covs.getD i default).wayId = (streets.getD i default).1 := by
  rw [h.2 i hi]
  split <;> rfl

theorem restoreOne_snd (covs : List SegmentCoverage) (V : Finset ℤ) (id : ℤ) :
    (restoreOne (covs, V) id).2 = insert id V := by
  unfold restoreOne
  cases covs.findIdx? (fun c => c.wayId = id) <;> rfl

theorem restoreOne_inv (streets : List (ℤ × List (ℝ × ℝ))) (done : List ℤ)
    (covs : List SegmentCoverage) (V : Finset ℤ) (id : ℤ)
    (hnodup : (streets.map Prod.fst).Nodup)
    (hinv : RestoreInv streets done covs) :
    RestoreInv streets (done ++ [id]) (restoreOne (covs, V) id).1 := by
  have hlen := hinv.1
  cases hf : covs.findIdx? (fun c => c.wayId = id) with
  | none =>
      have hnone := List.findIdx?_eq_none_iff.mp hf
      have hres : (restoreOne (covs, V) id).1 = covs := by
        unfold restoreOne; rw [hf]
      rw [hres]
      refine ⟨hlen, fun i hi => ?_⟩
      have hmem : covs.getD i default ∈ covs := by
        rw [List.getD_eq_getElem covs default (by omega)]
        exact List.getElem_mem _
      have hne : (streets.getD i default).1 ≠ id := by
        rw [← restoreInv_wayId streets done covs hinv i hi]
        have := hnone _ hmem
        simpa using this
      rw [hinv.2 i hi]
      have hiff0 : ((streets.getD i default).1 ∈ done ++ [id]) ↔
          ((streets.getD i default).1 ∈ done) := by
        rw [List.mem_append, List.mem_singleton]
        constructor
        · rintro (h | h)
          · exact h
          · exact absurd h hne
        · exact Or.inl
      by_cases hd : (streets.getD i default).1 ∈ done
      · rw [if_pos hd, if_pos (hiff0.mpr hd)]
      · rw [if_neg hd, if_neg (fun hx => hd (hiff0.mp hx))]
  | some j =>
      obtain ⟨hj, hpj, hfirst⟩ := List.findIdx?_eq_some_iff_getElem.mp hf
      have hjs : j < streets.length := by omega
      have hjid : (streets.getD j default).1 = id := by
        rw [← restoreInv_wayId streets done covs hinv j hjs]
        rw [List.getD_eq_getElem covs default hj]
        simpa using hpj
      have hres : (restoreOne (covs, V) id).1 =
          covs.set j (forceValidated (covs.getD j default)) := by
        unfold restoreOne; rw [hf]
      rw [hres]
      refine ⟨by rw [List.length_set]; exact hlen, fun i hi => ?_⟩
      by_cases hij : i = j
      · subst hij
        rw [getD_set_self' _ _ _ hj]
        have hmem : (streets.getD i default).1 ∈ done ++ [id] := by
          rw [List.mem_append, List.mem_singleton]
          exact Or.inr hjid
        rw [if_pos hmem, hinv.2 i hi]
        by_cases hd : (streets.getD i default).1 ∈ done
        · rw [if_pos hd, forceValidated_idem]
        · rw [if_neg hd]
      · rw [getD_set_ne' _ _ _ _ hij]
        have hne : (streets.getD i default).1 ≠ id := by
          intro he
          have hfst : (streets.map Prod.fst).getD i default =
              (streets.map Prod.fst).getD j default := by
            rw [List.getD_eq_getElem _ _ (by simpa using hi),
              List.getD_eq_getElem _ _ (by simpa using hjs)]
            rw [List.getElem_map, List.getElem_map]
            rw [← List.getD_eq_getElem streets default hi,
              ← List.getD_eq_getElem streets default hjs]
            rw [he, hjid]
          rw [List.getD_eq_getElem _ _ (by simpa using hi),
            List.getD_eq_getElem _ _ (by simpa using hjs)] at hfst
          exact hij (hnodup.getElem_inj_iff.mp hfst)
        rw [hinv.2 i hi]
        have hiff : ((streets.getD i default).1 ∈ done ++ [id]) ↔
            ((streets.getD i default).1 ∈ done) := by
          rw [List.mem_append, List.mem_singleton]
          constructor
          · rintro (h | h)
            · exact h
            · exact absurd h hne
          · exact Or.inl
        by_cases hd : (streets.getD i default).1 ∈ done
        · rw [if_pos hd, if_pos (hiff.mpr hd)]
        · rw [if_neg hd, if_neg (fun hx => hd (hiff.mp hx))]

theorem restore_foldl (streets : List (ℤ × List (ℝ × ℝ)))
    (hnodup : (streets.map Prod.fst).Nodup) (savedIds : List ℤ) :
    ∀ (covs : List SegmentCoverage) (V : Finset ℤ) (done : List ℤ),
      RestoreInv streets done covs →
      RestoreInv streets (done ++ savedIds) (savedIds.foldl restoreOne (covs, V)).1 ∧
      (savedIds.foldl restoreOne (covs, V)).2 =
        savedIds.foldl (fun s i => insert i s) V := by
  induction savedIds with
  | nil =>
      intro covs V done hinv
      constructor
      · simpa using hinv
      · rfl
  | cons id ids ih =>
      intro covs V done hinv
      have hstep := restoreOne_inv streets done covs V id hnodup hinv
      have hsnd := restoreOne_snd covs V id
      rw [List.foldl_cons]
      have hpair : restoreOne (covs, V) id =
          ((restoreOne (covs, V) id).1, insert id V) := by
        rw [← hsnd]
      rw [hpair]
      obtain ⟨h1, h2⟩ := ih (restoreOne (covs, V) id).1 (insert id V)
        (done ++ [id]) hstep
      refine ⟨?_, ?_⟩
      · rwa [List.append_cons done id ids]
      · rw [h2, List.foldl_cons]

theorem foldl_insert_toFinset (l : List ℤ) :
    ∀ V : Finset ℤ, l.foldl (fun s i => insert i s) V = V ∪ l.toFinset := by
  induction l with
  | nil => intro V; simp
  | cons a l ih =>
      intro V
      rw [List.foldl_cons, ih]
      ext x
      simp [or_comm, or_left_comm]

theorem initCoverages_inv (streets : List (ℤ × List (ℝ × ℝ))) :
    RestoreInv streets []
      ((List.range streets.length).zipWith initCoverage streets) := by
  constructor
  · simp
  · intro i hi
    rw [if_neg (by simp)]
    have hlen : ((List.range streets.length).zipWith initCoverage streets).length =
        streets.length := by simp
    rw [List.getD_eq_getElem _ _ (by rw [hlen]; exact hi)]
    rw [List.getElem_zipWith]
    rw [List.getElem_range]
    rw [← List.getD_eq_getElem streets default hi]

/-- C6 (amended): restoring a snapshot forces exactly the coverage entries
whose street id occurs in the saved-id list (fully covered, validated),
leaves every other entry at its freshly built value — so an unknown id
never touches any coverage entry and never blocks the other ids — and the
derived validated geometry is exactly the loaded streets with a saved id.
But the validated-way-id set receives every saved id, unknown ones
included, and both counters are set to the raw length of the saved-id
list. -/
theorem restore_characterization (userId city : String)
    (streets : List (ℤ × List (ℝ × ℝ))) (savedIds : List ℤ)
    (savedBadges : List String)
    (hnodup : (streets.map Prod.fst).Nodup) :
    (restoreState userId city streets savedIds savedBadges).validatedWayIds =
      savedIds.toFinset ∧
    (restoreState userId city streets savedIds savedBadges).coverages.length =
      streets.length ∧
    (∀ i, i < streets.length →
      (restoreState userId city streets savedIds savedBadges).coverages.getD i default =
        (if (streets.getD i default).1 ∈ savedIds then
          forceValidated (initCoverage i (streets.getD i default))
         else initCoverage i (streets.getD i default))) ∧
    validatedGeometry (restoreState userId city streets savedIds savedBadges) =
      streets.filter (fun st => st.1 ∈ savedIds.toFinset) ∧
    (restoreState userId city streets savedIds savedBadges).savedCount =
      savedIds.length ∧
    (restoreState userId city streets savedIds savedBadges).exploredCount =
      savedIds.length := by
  obtain ⟨hinv, hsnd⟩ := restore_foldl streets hnodup savedIds
    ((List.range streets.length).zipWith initCoverage streets) ∅ []
    (initCoverages_inv streets)
  have hset : (restoreState userId city streets savedIds savedBadges).validatedWayIds =
      savedIds.toFinset := by
    show (savedIds.foldl restoreOne _).2 = savedIds.toFinset
    rw [hsnd, foldl_insert_toFinset]
    simp
  refine ⟨hset, ?_, ?_, ?_, rfl, rfl⟩
  · exact hinv.1
  · intro i hi
    simpa using hinv.2 i hi
  · show ((some streets).getD []).filter
        (fun st => st.1 ∈ (restoreState userId city streets savedIds savedBadges).validatedWayIds) = _
    rw [hset]
    rfl

/-- A single loaded street with way id 1. -/
def streetsOne : List (ℤ × List (ℝ × ℝ)) := [(1, [(0, 0), (0, 0)])]

/-- C6 (counterexample): restoring the unknown way id 999 against a
dataset whose only street has id 1 still inserts 999 into the engine's
validated-way-id set (and it is counted by both counters), although the
claim says an unknown restored id has no effect on the validated set. -/
theorem restore_unknown_id_enters_set :
    (999 : ℤ) ∈ (restoreState "u" "ville" streetsOne [999] []).validatedWayIds ∧
      (∀ st ∈ streetsOne, st.1 ≠ 999) ∧
      (restoreState "u" "ville" streetsOne [999] []).exploredCount = 1 := by
  refine ⟨?_, ?_, rfl⟩
  · have h := (restore_characterization "u" "ville" streetsOne [999] []
      (by simp [streetsOne])).1
    rw [h]
    simp
  · intro st hst
    simp only [streetsOne, List.mem_singleton] at hst
    subst hst
    norm_num

theorem restore_characterization_witness :
    ((streetsOne.map Prod.fst).Nodup) ∧
    (restoreState "u" "ville" streetsOne [999] []).validatedWayIds =
      ([999] : List ℤ).toFinset ∧
    (∀ i, i < streetsOne.length →
      (restoreState "u" "ville" streetsOne [999] []).coverages.getD i default =
        (if (streetsOne.getD i default).1 ∈ ([999] : List ℤ) then
          forceValidated (initCoverage i (streetsOne.getD i default))
         else initCoverage i (streetsOne.getD i default))) ∧
    validatedGeometry (restoreState "u" "ville" streetsOne [999] []) =
      streetsOne.filter (fun st => st.1 ∈ ([999] : List ℤ).toFinset) :=
  ⟨by simp [streetsOne],
    (restore_characterization "u" "ville" streetsOne [999] [] (by simp [streetsOne])).1,
    (restore_characterization "u" "ville" streetsOne [999] [] (by simp [streetsOne])).2.2.1,
    (restore_characterization "u" "ville" streetsOne [999] [] (by simp [streetsOne])).2.2.2.1⟩

-- ── C5: the sampler ─────────────────────────────────────────────────────────

/-- The cosine factor a street's own geometry functions use: taken from
the first vertex's latitude. -/
def streetCosLat (coords : List (ℝ × ℝ)) : ℝ := cosLatOf (coords.headD (0, 0)).2

/-- Planar length of segment i of a street. -/
def segLenAt (coords : List (ℝ × ℝ)) (i : ℕ) : ℝ :=
  (segLens (streetCosLat coords) coords).getD i 0

/-- Cumulative planar length of the first i segments. -/
def cumLenAt (coords : List (ℝ × ℝ)) (i : ℕ) : ℝ :=
  ((segLens (streetCosLat coords) coords).take i).sum

/-- Total planar length of a street. -/
def totalLen (coords : List (ℝ × ℝ)) : ℝ :=
  (segLens (streetCosLat coords) coords).sum

/-- Sample count the sampler emits on segment i: max(1, ceil(len/step)). -/
def stepsAt (coords : List (ℝ × ℝ)) (stepMeters : ℝ) (i : ℕ) : ℕ :=
  max 1 ⌈segLenAt coords i / stepMeters⌉₊

/-- The j-th sample of segment i as the spec's formulas describe it:
position interpolated at local t = j/steps, global
t = (cum + localT*segLen)/total (0 when the total length is 0). -/
def specSampleAt (coords : List (ℝ × ℝ)) (stepMeters : ℝ) (i j : ℕ) : Sample :=
  let a := coords.getD i (0, 0)
  let b := coords.getD (i + 1) (0, 0)
  let localT : ℝ := (j : ℝ) / ((stepsAt coords stepMeters i : ℕ) : ℝ)
  ⟨a.1 + (b.1 - a.1) * localT, a.2 + (b.2 - a.2) * localT,
    if 0 < totalLen coords then
      (cumLenAt coords i + localT * segLenAt coords i) / totalLen coords
    else 0⟩

theorem flatMap_congr_mem {α β : Type} (l : List α) (f g : α → List β)
    (h : ∀ a ∈ l, f a = g a) : l.flatMap f = l.flatMap g := by
  induction l with
  | nil => rfl
  | cons a t ih =>
      rw [List.flatMap_cons, List.flatMap_cons, h a (by simp),
        ih (fun b hb => h b (by simp [hb]))]

theorem sampleLoop_closed (stepMeters total : ℝ) :
    ∀ (L : List (((ℝ × ℝ) × (ℝ × ℝ)) × ℝ)) (c : ℝ),
      sampleLoop stepMeters total L c =
        (List.range L.length).flatMap (fun i =>
          sampleSeg stepMeters total (c + ((L.map Prod.snd).take i).sum)
            (L.getD i default).1.1 (L.getD i default).1.2 (L.getD i default).2) := by
  intro L
  induction L with
  | nil => intro c; simp [sampleLoop]
  | cons sl rest ih =>
      intro c
      obtain ⟨s, len⟩ := sl
      rw [sampleLoop, ih (c + len)]
      rw [List.length_cons, List.range_succ_eq_map, List.flatMap_cons, List.flatMap_map]
      congr 1
      · simp
      · exact congrArg _ (funext fun i => by
          simp [List.take_succ_cons, List.getD_cons_succ, add_assoc, Nat.succ_eq_add_one])

theorem sampleSeg_eq_spec (coords : List (ℝ × ℝ)) (stepMeters : ℝ) (i : ℕ) :
    sampleSeg stepMeters (totalLen coords) (cumLenAt coords i)
      (coords.getD i (0, 0)) (coords.getD (i + 1) (0, 0)) (segLenAt coords i) =
    (List.range (stepsAt coords stepMeters i)).map (specSampleAt coords stepMeters i) := by
  simp only [sampleSeg, stepsAt]
  refine List.map_congr_left fun j hj => ?_
  simp only [specSampleAt, stepsAt]

/-- C5 (amended): for at least 2 vertices and positive stepMeters, the
sampler emits, per segment i, exactly max(1, ceil(segLen_i/stepMeters))
evenly spaced samples at local t = j/steps with global
t = (cum_i + localT*segLen_i)/total when total is positive (0 otherwise),
followed by exactly one final sample at the last vertex with t = 1. -/
theorem sampler_closed_form (coords : List (ℝ × ℝ)) (stepMeters : ℝ)
    (h2 : 2 ≤ coords.length) :
    sampleLineStringWithT coords stepMeters =
      (List.range (coords.length - 1)).flatMap (fun i =>
        (List.range (stepsAt coords stepMeters i)).map
          (specSampleAt coords stepMeters i)) ++
      [⟨(coords.getLastD (0, 0)).1, (coords.getLastD (0, 0)).2, 1⟩] ∧
    (sampleLineStringWithT coords stepMeters).length =
      ((List.range (coords.length - 1)).map (stepsAt coords stepMeters)).sum + 1 := by
  have hnlt : ¬ coords.length < 2 := Nat.not_lt.mpr h2
  have hsegs_len : (segsOf coords).length = coords.length - 1 := by
    simp [segsOf, List.length_zip]
  have hlens_len : (segLens (streetCosLat coords) coords).length = coords.length - 1 := by
    simp [segLens, segsOf, List.length_zip]
  have hL_len : ((segsOf coords).zip (segLens (streetCosLat coords) coords)).length =
      coords.length - 1 := by
    rw [List.length_zip, hsegs_len, hlens_len, min_self]
  have hmap_snd : ((segsOf coords).zip (segLens (streetCosLat coords) coords)).map
      Prod.snd = segLens (streetCosLat coords) coords := by
    apply List.map_snd_zip
    rw [hsegs_len, hlens_len]
  have hmain : sampleLineStringWithT coords stepMeters =
      (List.range (coords.length - 1)).flatMap (fun i =>
        (List.range (stepsAt coords stepMeters i)).map
          (specSampleAt coords stepMeters i)) ++
      [⟨(coords.getLastD (0, 0)).1, (coords.getLastD (0, 0)).2, 1⟩] := by
    have hred : sampleLineStringWithT coords stepMeters =
        sampleLoop stepMeters (segLens (streetCosLat coords) coords).sum
          ((segsOf coords).zip (segLens (streetCosLat coords) coords)) 0 ++
        [⟨(coords.getLastD (0, 0)).1, (coords.getLastD (0, 0)).2, 1⟩] := by
      rw [sampleLineStringWithT, if_neg hnlt]
      rfl
    rw [hred, sampleLoop_closed, hL_len]
    congr 1
    apply flatMap_congr_mem
    intro i hi
    have hi' : i < coords.length - 1 := List.mem_range.mp hi
    have hci : i < coords.length := by omega
    have hci1 : i + 1 < coords.length := by omega
    have hiL : i < ((segsOf coords).zip (segLens (streetCosLat coords) coords)).length := by
      rw [hL_len]; exact hi'
    have hsi : i < (segsOf coords).length := by rw [hsegs_len]; exact hi'
    have hli : i < (segLens (streetCosLat coords) coords).length := by
      rw [hlens_len]; exact hi'
    have hseg_i : (segsOf coords).getD i default =
        (coords.getD i (0, 0), coords.getD (i + 1) (0, 0)) := by
      rw [List.getD_eq_getElem _ _ hsi]
      simp only [segsOf]
      rw [List.getElem_zip, List.getElem_tail]
      rw [← List.getD_eq_getElem coords (0, 0) hci,
        ← List.getD_eq_getElem coords (0, 0) hci1]
    have hLget : ((segsOf coords).zip (segLens (streetCosLat coords) coords)).getD i
        default = ((segsOf coords).getD i default,
          (segLens (streetCosLat coords) coords).getD i 0) := by
      rw [List.getD_eq_getElem _ _ hiL, List.getElem_zip,
        ← List.getD_eq_getElem _ default hsi, ← List.getD_eq_getElem _ 0 hli]
    rw [hmap_snd, hLget, hseg_i]
    rw [zero_add]
    exact sampleSeg_eq_spec coords stepMeters i
  exact ⟨hmain, by
    rw [hmain, List.length_append, List.length_flatMap]
    simp [Function.comp_def]⟩

/-- A two-vertex street whose single segment has zero planar length. -/
def twoZeroCoords : List (ℝ × ℝ) := [(0, 0), (0, 0)]

/-- C5 (counterexample): on a zero-length segment the sampler emits
max(1, ceil(0/5)) = 1 sample plus the final one — two in total — while
the claim's count ceil(segLen/stepMeters) = 0 plus the final sample
predicts exactly one. -/
theorem sampler_zero_segment_counterexample :
    sampleLineStringWithT twoZeroCoords 5 = [⟨0, 0, 0⟩, ⟨0, 0, 1⟩] ∧
    (sampleLineStringWithT twoZeroCoords 5).length ≠ ⌈(0 : ℝ) / 5⌉₊ + 1 := by
  have heval : sampleLineStringWithT twoZeroCoords 5 = [⟨0, 0, 0⟩, ⟨0, 0, 1⟩] := by
    rw [sampleLineStringWithT, if_neg (by norm_num [twoZeroCoords])]
    norm_num [twoZeroCoords, segsOf, segLens, planarLen, cosLatOf, sampleLoop,
      sampleSeg, Real.sqrt_zero, List.range_succ]
  refine ⟨heval, ?_⟩
  rw [heval]
  norm_num

theorem sampler_closed_form_witness :
    sampleLineStringWithT twoZeroCoords 5 =
      (List.range (twoZeroCoords.length - 1)).flatMap (fun i =>
        (List.range (stepsAt twoZeroCoords 5 i)).map
          (specSampleAt twoZeroCoords 5 i)) ++
      [⟨(twoZeroCoords.getLastD (0, 0)).1, (twoZeroCoords.getLastD (0, 0)).2, 1⟩] ∧
    (sampleLineStringWithT twoZeroCoords 5).length =
      ((List.range (twoZeroCoords.length - 1)).map (stepsAt twoZeroCoords 5)).sum + 1 :=
  sampler_closed_form twoZeroCoords 5 (by norm_num [twoZeroCoords])

-- ── C8: sub-polyline extraction ─────────────────────────────────────────────

theorem segLens_nonneg (cosLat : ℝ) (coords : List (ℝ × ℝ)) :
    ∀ x ∈ segLens cosLat coords, 0 ≤ x := by
  intro x hx
  obtain ⟨p, _, hp⟩ := List.mem_map.mp hx
  rw [← hp]
  exact Real.sqrt_nonneg _

theorem segLens_length (cosLat : ℝ) (coords : List (ℝ × ℝ)) :
    (segLens cosLat coords).length = coords.length - 1 := by
  simp [segLens, segsOf, List.length_zip]

theorem segLenAt_nonneg (coords : List (ℝ × ℝ)) (i : ℕ) : 0 ≤ segLenAt coords i := by
  unfold segLenAt
  by_cases h : i < (segLens (streetCosLat coords) coords).length
  · rw [List.getD_eq_getElem _ _ h]
    exact segLens_nonneg _ _ _ (List.getElem_mem h)
  · rw [List.getD_eq_default _ _ (by omega)]

theorem cumLenAt_zero (coords : List (ℝ × ℝ)) : cumLenAt coords 0 = 0 := by
  simp [cumLenAt]

theorem cumLenAt_succ (coords : List (ℝ × ℝ)) (i : ℕ) (h : i < coords.length - 1) :
    cumLenAt coords (i + 1) = cumLenAt coords i + segLenAt coords i := by
  unfold cumLenAt segLenAt
  have hi : i < (segLens (streetCosLat coords) coords).length := by
    rw [segLens_length]; exact h
  rw [List.sum_take_succ _ _ hi, List.getD_eq_getElem _ _ hi]

theorem cumLenAt_mono (coords : List (ℝ × ℝ)) : Monotone (cumLenAt coords) := by
  apply monotone_nat_of_le_succ
  intro i
  unfold cumLenAt
  have hsub : List.Sublist ((segLens (streetCosLat coords) coords).take i)
      ((segLens (streetCosLat coords) coords).take (i + 1)) := by
    rw [show (segLens (streetCosLat coords) coords).take i =
        ((segLens (streetCosLat coords) coords).take (i + 1)).take i by
      rw [List.take_take, min_eq_left (by omega)]]
    exact List.take_sublist _ _
  exact List.Sublist.sum_le_sum hsub
    (fun x hx => segLens_nonneg _ _ _ (List.mem_of_mem_take hx))

theorem cumLenAt_last (coords : List (ℝ × ℝ)) :
    cumLenAt coords (coords.length - 1) = totalLen coords := by
  unfold cumLenAt totalLen
  rw [List.take_of_length_le (le_of_eq (segLens_length _ _))]

theorem cumLenAt_le_total (coords : List (ℝ × ℝ)) (k : ℕ) :
    cumLenAt coords k ≤ totalLen coords :=
  List.Sublist.sum_le_sum (List.take_sublist _ _) (segLens_nonneg _ _)

/-- The first segment index whose far end reaches arc distance d: the
segment on which the extraction loop emits its first interpolated point. -/
def startSegIdx (coords : List (ℝ × ℝ)) (d : ℝ) : ℕ :=
  ((List.range (coords.length - 1)).find?
    (fun i => decide (d ≤ cumLenAt coords (i + 1)))).getD 0

/-- The first segment index whose far end passes strictly beyond arc
distance d: the segment on which the loop emits its last point. -/
def endSegIdx (coords : List (ℝ × ℝ)) (d : ℝ) : ℕ :=
  ((List.range (coords.length - 1)).find?
    (fun i => decide (d < cumLenAt coords (i + 1)))).getD 0

/-- First point of the extracted sub-polyline: interpolation at arc
distance d on the start segment, with the source's clamp and
zero-length-segment guard. -/
def subStartPoint (coords : List (ℝ × ℝ)) (d : ℝ) : ℝ × ℝ :=
  let i := startSegIdx coords d
  let a := coords.getD i (0, 0)
  let b := coords.getD (i + 1) (0, 0)
  let len := segLenAt coords i
  let localT : ℝ := if 0 < len then max 0 ((d - cumLenAt coords i) / len) else 0
  (a.1 + (b.1 - a.1) * localT, a.2 + (b.2 - a.2) * localT)

/-- Last point of the extracted sub-polyline when d is strictly inside the
polyline: interpolation at arc distance d on the end segment. -/
def subEndPoint (coords : List (ℝ × ℝ)) (d : ℝ) : ℝ × ℝ :=
  let i := endSegIdx coords d
  let a := coords.getD i (0, 0)
  let b := coords.getD (i + 1) (0, 0)
  let len := segLenAt coords i
  let localT : ℝ := if 0 < len then (d - cumLenAt coords i) / len else 0
  (a.1 + (b.1 - a.1) * localT, a.2 + (b.2 - a.2) * localT)

/-- The original vertices the extraction loop copies into the result:
every vertex v(i+1) whose cumulative arc distance lies in the closed
interval [d0, d1], in original order. -/
def subInnerVerts (coords : List (ℝ × ℝ)) (d0 d1 : ℝ) : List (ℝ × ℝ) :=
  ((List.range (coords.length - 1)).filter
    (fun i => decide (d0 ≤ cumLenAt coords (i + 1)) &&
      decide (cumLenAt coords (i + 1) ≤ d1))).map
    (fun i => coords.getD (i + 1) (0, 0))

/-- Modelled from the spec: the claim's predicted intermediate vertices,
namely the subsequence of original vertices lying strictly between the
two arc-length bounds. -/
def strictlyInnerVerts (coords : List (ℝ × ℝ)) (d0 d1 : ℝ) : List (ℝ × ℝ) :=
  ((List.range coords.length).filter
    (fun j => decide (d0 < cumLenAt coords j) &&
      decide (cumLenAt coords j < d1))).map
    (fun j => coords.getD j (0, 0))

theorem find_range_least (n k : ℕ) (p : ℕ → Bool) (hk : k < n) (hpk : p k = true)
    (hprev : ∀ i, i < k → p i = false) : (List.range n).find? p = some k := by
  have hsplit : List.range n = List.range k ++ (List.range (n - k)).map (k + ·) := by
    rw [← List.range_add]
    congr 1
    omega
  rw [hsplit, List.find?_append]
  have h1 : (List.range k).find? p = none := by
    rw [List.find?_eq_none]
    intro i hi
    rw [hprev i (List.mem_range.mp hi)]
    simp
  rw [h1, Option.none_or]
  have h2 : n - k = (n - k - 1) + 1 := by omega
  rw [h2, List.range_succ_eq_map, List.map_cons, List.find?_cons]
  rw [show k + 0 = k by omega, hpk]

theorem startSegIdx_eq (coords : List (ℝ × ℝ)) (d : ℝ) (k : ℕ)
    (hk : k < coords.length - 1) (hpk : d ≤ cumLenAt coords (k + 1))
    (hprev : ∀ i, i < k → ¬ d ≤ cumLenAt coords (i + 1)) :
    startSegIdx coords d = k := by
  rw [startSegIdx, find_range_least _ k _ hk (by simpa using hpk)
    (fun i hi => by simpa using hprev i hi)]
  rfl

theorem endSegIdx_eq (coords : List (ℝ × ℝ)) (d : ℝ) (k : ℕ)
    (hk : k < coords.length - 1) (hpk : d < cumLenAt coords (k + 1))
    (hprev : ∀ i, i < k → ¬ d < cumLenAt coords (i + 1)) :
    endSegIdx coords d = k := by
  rw [endSegIdx, find_range_least _ k _ hk (by simpa using hpk)
    (fun i hi => by simpa using hprev i hi)]
  rfl

theorem zipSegs_length (coords : List (ℝ × ℝ)) :
    ((segsOf coords).zip (segLens (streetCosLat coords) coords)).length =
      coords.length - 1 := by
  rw [List.length_zip, segLens_length]
  simp [segsOf, List.length_zip]

theorem zipSegs_drop (coords : List (ℝ × ℝ)) (k : ℕ) (hk : k < coords.length - 1) :
    ((segsOf coords).zip (segLens (streetCosLat coords) coords)).drop k =
      ((coords.getD k (0, 0), coords.getD (k + 1) (0, 0)), segLenAt coords k) ::
      ((segsOf coords).zip (segLens (streetCosLat coords) coords)).drop (k + 1) := by
  have hkL : k < ((segsOf coords).zip (segLens (streetCosLat coords) coords)).length := by
    rw [zipSegs_length]; exact hk
  rw [List.drop_eq_getElem_cons hkL]
  congr 1
  have hks : k < (segsOf coords).length := by
    simp [segsOf, List.length_zip]
    omega
  have hkl : k < (segLens (streetCosLat coords) coords).length := by
    rw [segLens_length]; exact hk
  have hkc : k < coords.length := by omega
  have hkc1 : k + 1 < coords.length := by omega
  rw [List.getElem_zip]
  simp only [segsOf]
  rw [List.getElem_zip, List.getElem_tail]
  rw [← List.getD_eq_getElem coords (0, 0) hkc,
    ← List.getD_eq_getElem coords (0, 0) hkc1,
    ← List.getD_eq_getElem _ 0 hkl]
  rfl

/-- Loop invariant after the first point has been emitted: the remaining
iterations append exactly the vertices whose cumulative distance stays
within endDist, then the interpolated end point when endDist is strictly
inside the polyline. -/
theorem subLoop_phaseB (coords : List (ℝ × ℝ)) (startDist endDist : ℝ) :
    ∀ (m k : ℕ), m = (coords.length - 1) - k →
      k ≤ coords.length - 1 →
      startDist ≤ cumLenAt coords k →
      cumLenAt coords k ≤ endDist →
      ∀ pts : List (ℝ × ℝ), pts ≠ [] →
      subLoop startDist endDist
        (((segsOf coords).zip (segLens (streetCosLat coords) coords)).drop k)
        (cumLenAt coords k) pts =
      pts ++
        ((List.range' k ((coords.length - 1) - k)).filter
          (fun i => decide (cumLenAt coords (i + 1) ≤ endDist))).map
          (fun i => coords.getD (i + 1) (0, 0)) ++
        (if endDist < totalLen coords then [subEndPoint coords endDist] else []) := by
  intro m
  induction m with
  | zero =>
      intro k hm hk _ hk2 pts _
      have hkeq : k = coords.length - 1 := by omega
      subst hkeq
      rw [List.drop_of_length_le (le_of_eq (zipSegs_length coords))]
      rw [subLoop]
      have htt : totalLen coords ≤ endDist := by
        rw [← cumLenAt_last]; exact hk2
      rw [if_neg (by push_neg; exact htt)]
      simp
  | succ m ih =>
      intro k hm hk hk1 hk2 pts hpts
      have hklt : k < coords.length - 1 := by omega
      rw [zipSegs_drop coords k hklt, subLoop]
      have hcs : cumLenAt coords k + segLenAt coords k = cumLenAt coords (k + 1) :=
        (cumLenAt_succ coords k hklt).symm
      have hmono1 : cumLenAt coords k ≤ cumLenAt coords (k + 1) :=
        cumLenAt_mono coords (by omega)
      rw [if_neg (by rw [hcs]; push_neg; exact le_trans hk1 hmono1)]
      rw [if_neg (by push_neg; exact hk2)]
      dsimp only
      rw [if_neg hpts]
      by_cases hbr : cumLenAt coords (k + 1) ≤ endDist
      · rw [if_pos (by rw [hcs]; exact hbr), hcs]
        rw [ih (k + 1) (by omega) (by omega)
          (le_trans hk1 hmono1) hbr (pts ++ [coords.getD (k + 1) (0, 0)]) (by simp)]
        rw [show (coords.length - 1) - k = ((coords.length - 1) - (k + 1)) + 1 by omega,
          List.range'_succ]
        rw [List.filter_cons_of_pos (by simpa using hbr), List.map_cons]
        simp [List.append_assoc]
      · rw [if_neg (by rw [hcs]; exact hbr)]
        have hfilter : (List.range' k ((coords.length - 1) - k)).filter
            (fun i => decide (cumLenAt coords (i + 1) ≤ endDist)) = [] := by
          rw [List.filter_eq_nil_iff]
          intro i hi
          have hki : k ≤ i := by
            obtain ⟨j, hj, hij⟩ := List.mem_range'.mp hi
            omega
          have : cumLenAt coords (k + 1) ≤ cumLenAt coords (i + 1) :=
            cumLenAt_mono coords (by omega)
          simp only [decide_eq_true_eq]
          push_neg at hbr
          exact not_le.mpr (lt_of_lt_of_le hbr this)
        rw [hfilter]
        have hendlt : endDist < totalLen coords := by
          push_neg at hbr
          exact lt_of_lt_of_le hbr (cumLenAt_le_total coords (k + 1))
        rw [if_pos hendlt]
        have hidx : endSegIdx coords endDist = k := by
          apply endSegIdx_eq coords endDist k hklt (by push_neg at hbr; exact hbr)
          intro i hi
          push_neg
          exact le_trans (cumLenAt_mono coords (by omega)) hk2
        rw [List.map_nil, List.append_nil]
        congr 1
        rw [subEndPoint, hidx]

/-- Loop behaviour before the first point: segments entirely before
startDist are skipped, then the first reachable segment emits the start
point and hands over to the post-start phase. -/
theorem subLoop_phaseA (coords : List (ℝ × ℝ)) (startDist endDist : ℝ)
    (hse : startDist < endDist)
    (hstot : startDist < totalLen coords) :
    ∀ (m k : ℕ), m = (coords.length - 1) - k →
      cumLenAt coords k ≤ startDist →
      (∀ i, i < k → cumLenAt coords (i + 1) < startDist) →
      subLoop startDist endDist
        (((segsOf coords).zip (segLens (streetCosLat coords) coords)).drop k)
        (cumLenAt coords k) [] =
      subStartPoint coords startDist ::
        subInnerVerts coords startDist endDist ++
        (if endDist < totalLen coords then [subEndPoint coords endDist] else []) := by
  intro m
  induction m with
  | zero =>
      intro k hm hk1 _
      exfalso
      have hkn : coords.length - 1 ≤ k := by omega
      have : totalLen coords ≤ cumLenAt coords k := by
        rw [← cumLenAt_last]
        exact cumLenAt_mono coords hkn
      exact absurd (lt_of_lt_of_le hstot (le_trans this hk1)) (lt_irrefl _)
  | succ m ih =>
      intro k hm hk1 hprev
      have hklt : k < coords.length - 1 := by omega
      rw [zipSegs_drop coords k hklt, subLoop]
      have hcs : cumLenAt coords k + segLenAt coords k = cumLenAt coords (k + 1) :=
        (cumLenAt_succ coords k hklt).symm
      by_cases hskip : cumLenAt coords (k + 1) < startDist
      · rw [if_pos (by rw [hcs]; exact hskip), hcs]
        exact ih (k + 1) (by omega) (le_of_lt hskip)
          (fun i hi => by
            rcases Nat.lt_succ_iff_lt_or_eq.mp hi with h | h
            · exact hprev i h
            · subst h; exact hskip)
      · rw [if_neg (by rw [hcs]; exact hskip)]
        rw [if_neg (by push_neg; exact le_of_lt (lt_of_le_of_lt hk1 hse))]
        dsimp only
        rw [if_pos rfl]
        push_neg at hskip
        have hidxS : startSegIdx coords startDist = k :=
          startSegIdx_eq coords startDist k hklt hskip
            (fun i hi => not_le.mpr (hprev i hi))
        have hstartpt : ([] : List (ℝ × ℝ)) ++
            [((coords.getD k (0, 0)).1 +
                ((coords.getD (k + 1) (0, 0)).1 - (coords.getD k (0, 0)).1) *
                (if 0 < segLenAt coords k then
                  max 0 ((startDist - cumLenAt coords k) / segLenAt coords k) else 0),
              (coords.getD k (0, 0)).2 +
                ((coords.getD (k + 1) (0, 0)).2 - (coords.getD k (0, 0)).2) *
                (if 0 < segLenAt coords k then
                  max 0 ((startDist - cumLenAt coords k) / segLenAt coords k) else 0))] =
            [subStartPoint coords startDist] := by
          rw [List.nil_append, subStartPoint, hidxS]
        by_cases hbr : cumLenAt coords (k + 1) ≤ endDist
        · rw [if_pos (by rw [hcs]; exact hbr), hcs]
          rw [hstartpt]
          rw [subLoop_phaseB coords startDist endDist m (k + 1) (by omega) (by omega)
            hskip hbr ([subStartPoint coords startDist] ++ [coords.getD (k + 1) (0, 0)])
            (by simp)]
          have hinner : subInnerVerts coords startDist endDist =
              coords.getD (k + 1) (0, 0) ::
              ((List.range' (k + 1) ((coords.length - 1) - (k + 1))).filter
                (fun i => decide (cumLenAt coords (i + 1) ≤ endDist))).map
                (fun i => coords.getD (i + 1) (0, 0)) := by
            rw [subInnerVerts]
            have hsplit : List.range (coords.length - 1) =
                List.range k ++ (List.range ((coords.length - 1) - k)).map (k + ·) := by
              rw [← List.range_add]
              congr 1
              omega
            rw [hsplit, List.filter_append]
            have h1 : (List.range k).filter
                (fun i => decide (startDist ≤ cumLenAt coords (i + 1)) &&
                  decide (cumLenAt coords (i + 1) ≤ endDist)) = [] := by
              rw [List.filter_eq_nil_iff]
              intro i hi
              have := hprev i (List.mem_range.mp hi)
              simp [not_le.mpr this]
            rw [h1, List.nil_append]
            have h2 : (List.range ((coords.length - 1) - k)).map (k + ·) =
                List.range' k ((coords.length - 1) - k) :=
              (List.range'_eq_map_range k _).symm
            rw [h2]
            have h3 : (List.range' k ((coords.length - 1) - k)).filter
                (fun i => decide (startDist ≤ cumLenAt coords (i + 1)) &&
                  decide (cumLenAt coords (i + 1) ≤ endDist)) =
                (List.range' k ((coords.length - 1) - k)).filter
                  (fun i => decide (cumLenAt coords (i + 1) ≤ endDist)) := by
              apply List.filter_congr
              intro i hi
              have hki : k ≤ i := by
                obtain ⟨j, hj, hij⟩ := List.mem_range'.mp hi
                omega
              have hcond1 : startDist ≤ cumLenAt coords (i + 1) :=
                le_trans hskip (cumLenAt_mono coords (by omega))
              simp [hcond1]
            rw [h3]
            rw [show (coords.length - 1) - k = ((coords.length - 1) - (k + 1)) + 1 by
              omega, List.range'_succ]
            rw [List.filter_cons_of_pos (by simpa using hbr), List.map_cons]
          rw [hinner]
          simp
        · rw [if_neg (by rw [hcs]; exact hbr)]
          push_neg at hbr
          have hinner0 : subInnerVerts coords startDist endDist = [] := by
            rw [subInnerVerts]
            rw [List.map_eq_nil_iff, List.filter_eq_nil_iff]
            intro i hi
            have hilt : i < coords.length - 1 := List.mem_range.mp hi
            by_cases hik : i < k
            · simp [not_le.mpr (hprev i hik)]
            · have : cumLenAt coords (k + 1) ≤ cumLenAt coords (i + 1) :=
                cumLenAt_mono coords (by omega)
              simp [not_le.mpr (lt_of_lt_of_le hbr this)]
          have hendlt : endDist < totalLen coords :=
            lt_of_lt_of_le hbr (cumLenAt_le_total coords (k + 1))
          have hidxE : endSegIdx coords endDist = k := by
            apply endSegIdx_eq coords endDist k hklt hbr
            intro i hi
            push_neg
            exact le_of_lt (lt_trans (hprev i hi) hse)
          rw [hinner0, if_pos hendlt]
          have hclose : ([] : List (ℝ × ℝ)) ++
              [((coords.getD k (0, 0)).1 +
                  ((coords.getD (k + 1) (0, 0)).1 - (coords.getD k (0, 0)).1) *
                  (if 0 < segLenAt coords k then
                    max 0 ((startDist - cumLenAt coords k) / segLenAt coords k) else 0),
                (coords.getD k (0, 0)).2 +
                  ((coords.getD (k + 1) (0, 0)).2 - (coords.getD k (0, 0)).2) *
                  (if 0 < segLenAt coords k then
                    max 0 ((startDist - cumLenAt coords k) / segLenAt coords k) else 0))] ++
              [((coords.getD k (0, 0)).1 +
                  ((coords.getD (k + 1) (0, 0)).1 - (coords.getD k (0, 0)).1) *
                  (if 0 < segLenAt coords k then
                    (endDist - cumLenAt coords k) / segLenAt coords k else 0),
                (coords.getD k (0, 0)).2 +
                  ((coords.getD (k + 1) (0, 0)).2 - (coords.getD k (0, 0)).2) *
                  (if 0 < segLenAt coords k then
                    (endDist - cumLenAt coords k) / segLenAt coords k else 0))] =
              subStartPoint coords startDist :: [] ++ [subEndPoint coords endDist] := by
            rw [subStartPoint, subEndPoint, hidxS, hidxE]
            simp
          exact hclose

/-- C8 (amended): for a polyline with at least 2 vertices and
0 <= t0 < t1 <= 1 with positive total length, subLineString returns the
polyline starting at the interpolated point at arc fraction t0, followed
by exactly the original vertices whose cumulative arc distance lies in
the closed interval [t0*total, t1*total] in original order, and ending
with the interpolated point at arc fraction t1 whenever t1*total is
strictly inside the polyline (a vertex lying exactly at a bound is kept
and may duplicate the adjacent endpoint); and it returns none whenever
t0 >= t1 or the total planar length is 0. -/
theorem subLineString_characterization (coords : List (ℝ × ℝ)) (t0 t1 : ℝ)
    (h2 : 2 ≤ coords.length) (h0 : 0 ≤ t0) (h01 : t0 < t1) (h1 : t1 ≤ 1)
    (htot : 0 < totalLen coords) :
    subLineString coords t0 t1 =
      some (subStartPoint coords (t0 * totalLen coords) ::
        subInnerVerts coords (t0 * totalLen coords) (t1 * totalLen coords) ++
        (if t1 * totalLen coords < totalLen coords then
          [subEndPoint coords (t1 * totalLen coords)] else [])) ∧
    (∀ cs : List (ℝ × ℝ), ∀ u0 u1 : ℝ,
      u1 ≤ u0 ∨ totalLen cs = 0 → subLineString cs u0 u1 = none) := by
  constructor
  · have hse : t0 * totalLen coords < t1 * totalLen coords :=
      mul_lt_mul_of_pos_right h01 htot
    have hend : t1 * totalLen coords ≤ totalLen coords :=
      mul_le_of_le_one_left htot.le h1
    have hstot : t0 * totalLen coords < totalLen coords := lt_of_lt_of_le hse hend
    rw [subLineString, if_neg (by push_neg; exact ⟨h01, h2⟩)]
    dsimp only
    rw [if_neg (show ¬ (segLens (cosLatOf (coords.headD (0, 0)).2) coords).sum = 0 from
      htot.ne')]
    rw [show segLens (cosLatOf (coords.headD (0, 0)).2) coords =
      segLens (streetCosLat coords) coords from rfl]
    rw [show (segLens (streetCosLat coords) coords).sum = totalLen coords from rfl]
    have hA := subLoop_phaseA coords (t0 * totalLen coords) (t1 * totalLen coords)
      hse hstot (coords.length - 1) 0 (by omega)
      (by rw [cumLenAt_zero]; exact mul_nonneg h0 htot.le)
      (fun i hi => absurd hi (by omega))
    rw [List.drop_zero, cumLenAt_zero] at hA
    rw [hA]
    have hlen : 2 ≤ (subStartPoint coords (t0 * totalLen coords) ::
        subInnerVerts coords (t0 * totalLen coords) (t1 * totalLen coords) ++
        (if t1 * totalLen coords < totalLen coords then
          [subEndPoint coords (t1 * totalLen coords)] else [])).length := by
      by_cases he : t1 * totalLen coords < totalLen coords
      · rw [if_pos he]
        simp
      · rw [if_neg he]
        push_neg at he
        have hmem : coords.length - 2 ∈
            (List.range (coords.length - 1)).filter
              (fun i => decide (t0 * totalLen coords ≤ cumLenAt coords (i + 1)) &&
                decide (cumLenAt coords (i + 1) ≤ t1 * totalLen coords)) := by
          rw [List.mem_filter]
          refine ⟨List.mem_range.mpr (by omega), ?_⟩
          rw [show coords.length - 2 + 1 = coords.length - 1 by omega, cumLenAt_last]
          simp only [Bool.and_eq_true, decide_eq_true_eq]
          exact ⟨le_of_lt hstot, he⟩
        have hne : subInnerVerts coords (t0 * totalLen coords) (t1 * totalLen coords) ≠
            [] := by
          rw [subInnerVerts]
          exact List.ne_nil_of_mem (List.mem_map_of_mem _ hmem)
        have := List.length_pos.mpr hne
        simp only [List.append_nil, List.length_cons]
        omega
    rw [if_pos hlen]
  · intro cs u0 u1 h
    rcases h with h | h
    · rw [subLineString, if_pos (Or.inl h)]
    · by_cases hg : u1 ≤ u0 ∨ cs.length < 2
      · rw [subLineString, if_pos hg]
      · rw [subLineString, if_neg hg]
        dsimp only
        rw [if_pos (show (segLens (cosLatOf (cs.headD (0, 0)).2) cs).sum = 0 from h)]

/-- Three collinear vertices on the equator, one planar unit apart. -/
def threeColl : List (ℝ × ℝ) := [(0, 0), (1, 0), (2, 0)]

theorem segLens_threeColl :
    segLens (cosLatOf ((threeColl.headD (0, 0)).2)) threeColl = [111000, 111000] := by
  have hc : cosLatOf ((threeColl.headD (0, 0)).2) = 1 := by
    norm_num [threeColl, cosLatOf]
  rw [hc]
  norm_num [segLens, segsOf, threeColl, planarLen]
  rw [show (12321000000 : ℝ) = 111000 * 111000 by norm_num]
  exact Real.sqrt_mul_self (by norm_num)

theorem totalLen_threeColl : totalLen threeColl = 222000 := by
  rw [totalLen, show segLens (streetCosLat threeColl) threeColl =
    segLens (cosLatOf ((threeColl.headD (0, 0)).2)) threeColl from rfl,
    segLens_threeColl]
  norm_num

/-- C8 (counterexample): extracting [t0, t1] = [0, 1/2] of the straight
3-vertex street puts the middle vertex — whose arc position is exactly
the t1 bound, not strictly between the bounds — into the result as an
intermediate point (duplicating the end point), while the claim predicts
no intermediate vertex at all. -/
theorem sub_vertex_at_bound_counterexample :
    subLineString threeColl 0 (1 / 2) =
      some [(0, 0), (1, 0), (1, 0)] ∧
    (([((0 : ℝ), (0 : ℝ)), (1, 0), (1, 0)].drop 1).dropLast = [((1 : ℝ), (0 : ℝ))]) ∧
    strictlyInnerVerts threeColl (0 * totalLen threeColl)
      ((1 / 2) * totalLen threeColl) = [] := by
  refine ⟨?_, by norm_num, ?_⟩
  · rw [subLineString, if_neg (by norm_num [threeColl])]
    dsimp only
    rw [segLens_threeColl]
    rw [if_neg (by norm_num)]
    have hloop : subLoop (0 * (111000 + (111000 + 0)))
        ((1 / 2) * (111000 + (111000 + 0)))
        ((segsOf threeColl).zip [111000, 111000]) 0 [] =
        [(0, 0), (1, 0), (1, 0)] := by
      norm_num [segsOf, threeColl, subLoop, List.cons_ne_nil]
    rw [show (List.sum [(111000 : ℝ), 111000]) = 111000 + (111000 + 0) from rfl]
    rw [hloop]
    norm_num
  · rw [totalLen_threeColl]
    have hcum : ∀ j : ℕ, cumLenAt threeColl j =
        (([111000, 111000] : List ℝ).take j).sum := by
      intro j
      rw [cumLenAt, show segLens (streetCosLat threeColl) threeColl =
        segLens (cosLatOf ((threeColl.headD (0, 0)).2)) threeColl from rfl,
        segLens_threeColl]
    have hc0 : cumLenAt threeColl 0 = 0 := by rw [hcum]; norm_num
    have hc1 : cumLenAt threeColl 1 = 111000 := by rw [hcum]; norm_num
    have hc2 : cumLenAt threeColl 2 = 222000 := by rw [hcum]; norm_num
    have hlen3 : threeColl.length = 3 := rfl
    norm_num [strictlyInnerVerts, hlen3, hc0, hc1, hc2, List.range_succ]

theorem subLineString_characterization_witness :
    subLineString threeColl 0 (1 / 2) =
      some (subStartPoint threeColl (0 * totalLen threeColl) ::
        subInnerVerts threeColl (0 * totalLen threeColl)
          ((1 / 2) * totalLen threeColl) ++
        (if (1 / 2) * totalLen threeColl < totalLen threeColl then
          [subEndPoint threeColl ((1 / 2) * totalLen threeColl)] else [])) ∧
    (∀ cs : List (ℝ × ℝ), ∀ u0 u1 : ℝ,
      u1 ≤ u0 ∨ totalLen cs = 0 → subLineString cs u0 u1 = none) :=
  subLineString_characterization threeColl 0 (1 / 2)
    (by norm_num [threeColl]) le_rfl (by norm_num) (by norm_num)
    (by rw [totalLen_threeColl]; norm_num)

end StreetQuest

end
